import Mathlib

/-!
Verification development for the raspi-voice assistant (src/ai_necklace.py and
src/ai_necklace_gmail.py).  The Python source is shallowly embedded: each
global-mutating function becomes a pure Lean function over an explicit state,
external collaborators (Gmail API, camera, chat/TTS services, audio devices)
become oracle parameters, and Python exceptions become an explicit
exception-carrying result.  Definitions are transcribed from the source files;
definitions whose name starts with `spec` transcribe the specification's words
instead, for comparison.
-/

set_option maxHeartbeats 1000000

/-- Whitespace characters stripped by Python's `int(str)` (ASCII fragment). -/
def isPyWs (c : Char) : Bool :=
  c = ' ' || c = '\t' || c = '\n' || c = '\r' || c = '\x0b' || c = '\x0c'

/-- Strip leading and trailing whitespace, as Python `int(str)` does. -/
def pyStrip (l : List Char) : List Char :=
  ((l.dropWhile isPyWs).reverse.dropWhile isPyWs).reverse

/-- Decimal digit run with Python's underscore rule: an underscore must sit
between two digits ("1_0" parses, "_1", "1_", "1__0" do not). -/
def pyDigits : List Char → Nat → Option Nat
  | [], acc => some acc
  | '_' :: c :: rest, acc =>
      if c.isDigit then pyDigits rest (acc * 10 + (c.toNat - 48)) else none
  | ['_'], _ => none
  | c :: rest, acc =>
      if c.isDigit then pyDigits rest (acc * 10 + (c.toNat - 48)) else none

/-- Unsigned digit part of Python `int(str)`: at least one digit required. -/
def pyDigitsStart : List Char → Option Nat
  | [] => none
  | c :: rest =>
      if c.isDigit then pyDigits rest (c.toNat - 48) else none

/-- Model of Python `int(str)` (ASCII digits): optional surrounding
whitespace, optional sign, then digits with single interior underscores.
Returns `none` where Python raises `ValueError`. -/
def pyIntChars (l : List Char) : Option Int :=
  match pyStrip l with
  | '+' :: rest => (pyDigitsStart rest).map (fun n => (n : Int))
  | '-' :: rest => (pyDigitsStart rest).map (fun n => -(n : Int))
  | rest => (pyDigitsStart rest).map (fun n => (n : Int))

/-- Python `int(str)` on a `String`. -/
def pyInt (s : String) : Option Int :=
  pyIntChars s.data

/-- Python `str.split(':')`: split on every colon, keeping empty fields
("".split(':') gives [""], "a::b" gives ["a","","b"]). -/
def splitColon : List Char → List (List Char)
  | [] => [[]]
  | c :: rest =>
      if c = ':' then [] :: splitColon rest
      else
        match splitColon rest with
        | [] => [[c]]
        | g :: gs => (c :: g) :: gs

/-- One stored alarm, as built by `alarm_set` (ai_necklace.py:249-256). -/
structure Alarm where
  id : Nat
  time : String
  label : String
  message : String
  enabled : Bool
  createdAt : String
deriving DecidableEq, Repr

/-- The alarm globals: `alarms` and `alarm_next_id` (ai_necklace.py:195-196). -/
structure AlarmState where
  alarms : List Alarm
  nextId : Nat
deriving DecidableEq, Repr

/-- The time validation of `alarm_set` (ai_necklace.py:242-243):
`hour, minute = map(int, time_str.split(':'))`, i.e. exactly two
colon-separated fields, each accepted by Python `int`. -/
def parseHM (s : String) : Option (Int × Int) :=
  match splitColon s.data with
  | [a, b] =>
      match pyIntChars a, pyIntChars b with
      | some h, some m => some (h, m)
      | _, _ => none
  | _ => none

/-- `alarm_set` (ai_necklace.py:237-262).  `message_str` is the `message`
parameter after Python's `message or f"{label}の時間です"` default is applied
for the empty string; `createdAt` stands for `datetime.now().isoformat()`.
`save_alarms` only writes the returned state to disk and catches its own
errors, so it is not modelled further. -/
def alarmSet (timeStr label messageStr createdAt : String) (st : AlarmState) :
    String × AlarmState :=
  match parseHM timeStr with
  | none => ("時刻の形式が不正です。HH:MM形式（例: 07:00）で指定してください。", st)
  | some (h, m) =>
      if 0 ≤ h ∧ h ≤ 23 ∧ 0 ≤ m ∧ m ≤ 59 then
        (timeStr ++ "に「" ++ label ++ "」のアラームを設定しました。",
         { alarms := st.alarms ++
             [{ id := st.nextId, time := timeStr, label := label,
                message := if messageStr = "" then label ++ "の時間です" else messageStr,
                enabled := true, createdAt := createdAt }],
           nextId := st.nextId + 1 })
      else
        ("時刻が不正です。00:00〜23:59の形式で指定してください。", st)

/-- The deletion loop of `alarm_delete` (ai_necklace.py:289-295): remove the
first alarm whose id equals the argument, if any. -/
def removeFirstById (n : Int) : List Alarm → Option (Alarm × List Alarm)
  | [] => none
  | a :: rest =>
      if (a.id : Int) = n then some (a, rest)
      else (removeFirstById n rest).map (fun p => (p.1, a :: p.2))

/-- `alarm_delete` after the `int(alarm_id)` conversion succeeded
(ai_necklace.py:280-295). -/
def alarmDeleteCore (n : Int) (st : AlarmState) : String × AlarmState :=
  match removeFirstById n st.alarms with
  | some (d, rest) =>
      ("「" ++ d.label ++ "」(" ++ d.time ++ ")のアラームを削除しました。",
       { st with alarms := rest })
  | none =>
      ("ID " ++ toString n ++ " のアラームが見つかりません。", st)

/-- One in-process alarm operation, for the id-monotonicity claim: a
`alarm_set` call (with its string arguments) or a `alarm_delete` call. -/
inductive AlarmOp where
  | set (timeStr label messageStr createdAt : String)
  | del (n : Int)

/-- Run one alarm operation; the second component is the id assigned by a
successful set (`alarm_next_id` at call time), `none` otherwise. -/
def alarmStep (st : AlarmState) : AlarmOp → AlarmState × Option Nat
  | .set t l m c =>
      let st2 := (alarmSet t l m c st).2
      (st2, if st2.nextId = st.nextId + 1 then some st.nextId else none)
  | .del n => ((alarmDeleteCore n st).2, none)

/-- Run a sequence of alarm operations from a state, collecting every id
assigned by a successful set, in order. -/
def runAlarmOps (st : AlarmState) : List AlarmOp → AlarmState × List Nat
  | [] => (st, [])
  | op :: rest =>
      let p := alarmStep st op
      let q := runAlarmOps p.1 rest
      (q.1, p.2.toList ++ q.2)

/-- Transcribed from the spec's words (§8): a strict `HH:MM` string —
exactly five characters, two digits, a colon, two digits, hour 00-23 and
minute 00-59.  Used only to compare the spec's notion of validity with the
code's. -/
def specStrictHHMM (s : String) : Bool :=
  match s.data with
  | [h1, h2, c, m1, m2] =>
      h1.isDigit && h2.isDigit && c = ':' && m1.isDigit && m2.isDigit &&
      ((h1.toNat - 48) * 10 + (h2.toNat - 48) ≤ 23) &&
      ((m1.toNat - 48) * 10 + (m2.toNat - 48) ≤ 59)
  | _ => false

/-- Render an hour or minute the way the spec's strict `HH:MM` form does,
two digits. -/
def twoDigits (n : Nat) : String :=
  if n < 10 then "0" ++ toString n else toString n

/-- A strict `HH:MM` string built from numeric hour and minute. -/
def fmtHHMM (h m : Nat) : String :=
  twoDigits h ++ ":" ++ twoDigits m

/-- The code's success/mutation condition for `alarm_set`: the time string
parses as two colon-separated Python ints, both in range. -/
def setTimeValid (s : String) : Bool :=
  match parseHM s with
  | none => false
  | some p => decide (0 ≤ p.1 ∧ p.1 ≤ 23 ∧ 0 ≤ p.2 ∧ p.2 ≤ 59)

/-!  AlarmScheduler: `check_alarms_and_notify` (ai_necklace.py:298-345).
One iteration of the `while running` loop is a tick.  The dict key
`f"{alarm_id}_{current_time}"` is modelled as the pair
`(alarm id, current minute)`: keys are only ever created from a
5-character `strftime("%H:%M")` minute, for which the source's
`k.endswith(current_minute)` cleanup test coincides with comparing the
stored minute.  The `is_recording` flag (read under `record_lock` before
each notification) is a tick input; a played notification is recorded as
the pair (alarm id, spoken text). -/

/-- The `for alarm in alarms` body of one scheduler tick
(ai_necklace.py:309-334), threading `last_triggered` and collecting the
notifications spoken. -/
def alarmsPass (now : String) (recording : Bool) :
    List Alarm → List (Nat × String) → List (Nat × String) × List (Nat × String)
  | [], lt => (lt, [])
  | a :: rest, lt =>
      if a.enabled = false then alarmsPass now recording rest lt
      else if (a.id, now) ∈ lt then alarmsPass now recording rest lt
      else if a.time = now then
        let lt2 := lt ++ [(a.id, now)]
        let r := alarmsPass now recording rest lt2
        (r.1, (if recording then [] else [(a.id, "アラームです。" ++ a.message)]) ++ r.2)
      else alarmsPass now recording rest lt

/-- One full scheduler tick: the alarm pass followed by the stale-key
cleanup (ai_necklace.py:336-340), which keeps exactly the keys of the
current minute.  Returns the new `last_triggered` and the notifications
spoken on this tick. -/
def checkTick (alarms : List Alarm) (now : String) (recording : Bool)
    (lt : List (Nat × String)) : List (Nat × String) × List (Nat × String) :=
  let r := alarmsPass now recording alarms lt
  (r.1.filter (fun k => k.2 = now), r.2)

/-- The wall-clock minute and recording-flag state observed by one tick. -/
structure SchedTick where
  now : String
  recording : Bool
deriving DecidableEq, Repr

/-- Run a sequence of scheduler ticks, concatenating the notifications. -/
def runTicks (alarms : List Alarm) :
    List SchedTick → List (Nat × String) → List (Nat × String) × List (Nat × String)
  | [], lt => (lt, [])
  | t :: rest, lt =>
      let r := checkTick alarms t.now t.recording lt
      let q := runTicks alarms rest r.1
      (q.1, r.2 ++ q.2)

/-!  RecordingStateMachine: `record_audio_while_pressed`
(ai_necklace.py:883-964) and `record_audio_auto` (ai_necklace.py:967-1028).
A chunk is represented by its mean absolute amplitude (the only property
the code inspects); the per-iteration environment (running flag, timeout,
button, device readiness, read errors) is an input trace.  An exhausted
trace ends the loop, standing for process shutdown.  Writes of the
mutex-guarded `is_recording` flag and chunk reads are recorded as events. -/

/-- Environment of one iteration of the hold-to-talk loop
(ai_necklace.py:913-944): the `running` flag, whether the 60 s wall-clock
timeout has elapsed, whether the button is released, whether
`get_read_available()` returned at least a chunk, whether `stream.read`
raised, and the chunk's mean absolute amplitude. -/
structure HoldStep where
  running : Bool
  timedOut : Bool
  released : Bool
  avail : Bool
  readErr : Bool
  vol : Nat
deriving DecidableEq, Repr

/-- Events of a capture: a mutex-guarded write of `is_recording`, or one
chunk read appended to `frames`. -/
inductive RecEv where
  | flagWrite (b : Bool)
  | chunkRead
deriving DecidableEq, Repr

/-- `max_chunks` of hold mode: `int(44100 / 1024 * 30)` — the float
quotient is exact in binary, so this equals the integer quotient. -/
def maxChunksHold : Nat := 44100 * 30 / 1024

/-- The hold-to-talk `while True` loop (ai_necklace.py:913-944): checks, in
order, the running flag, the timeout, the button, the max duration; then
reads one chunk if available (a read error breaks the loop). -/
def holdLoop : List HoldStep → List Nat → List Nat × List RecEv
  | [], frames => (frames, [])
  | s :: rest, frames =>
      if s.running = false then (frames, [])
      else if s.timedOut then (frames, [])
      else if s.released then (frames, [])
      else if maxChunksHold ≤ frames.length then (frames, [])
      else if s.avail then
        if s.readErr then (frames, [])
        else
          let r := holdLoop rest (frames ++ [s.vol])
          (r.1, .chunkRead :: r.2)
      else holdLoop rest frames

/-- Outcome of a capture: the chunks read, the event trace, and the
returned value (`none`, or the buffer of chunks in capture order; the WAV
encoding is the identity on the chunk sequence here). -/
structure RecResult where
  frames : List Nat
  events : List RecEv
  result : Option (List Nat)
deriving DecidableEq, Repr

/-- `record_audio_while_pressed` (ai_necklace.py:883-964): sets the flag
under the mutex, runs the loop, clears the flag under the mutex, then
returns `None` if fewer than 5 chunks were captured, else the buffer. -/
def recordAudioWhilePressed (steps : List HoldStep) : RecResult :=
  let r := holdLoop steps []
  { frames := r.1,
    events := .flagWrite true :: (r.2 ++ [.flagWrite false]),
    result := if r.1.length < 5 then none else some r.1 }

/-- Environment of one iteration of the auto-mode loop
(ai_necklace.py:993-1011): the running flag and the chunk amplitude. -/
structure AutoStep where
  running : Bool
  vol : Nat
deriving DecidableEq, Repr

/-- `max_chunks` of auto mode: `int(44100 / 1024 * 5)` (exact float). -/
def maxChunksAuto : Nat := 44100 * 5 / 1024

/-- `silence_chunks_threshold`: `int(44100 / 1024 * 1.5)` (exact float). -/
def silenceChunksThreshold : Nat := 44100 * 15 / (1024 * 10)

/-- `silence_threshold` from CONFIG (ai_necklace.py:86). -/
def silenceThreshold : Nat := 500

/-- The auto-mode `for i in range(max_chunks)` loop
(ai_necklace.py:993-1011): reads a chunk, tracks `has_sound` and the
consecutive-silence count, stops on silence after sound.  The first
argument is the remaining iteration budget. -/
def autoLoop : Nat → List AutoStep → List Nat → Nat → Bool → List Nat × Bool
  | 0, _, frames, _, hs => (frames, hs)
  | _ + 1, [], frames, _, hs => (frames, hs)
  | n + 1, s :: rest, frames, silent, hs =>
      if s.running = false then (frames, hs)
      else
        let frames2 := frames ++ [s.vol]
        let hs2 := if silenceThreshold < s.vol then true else hs
        let silent2 := if silenceThreshold < s.vol then 0 else silent + 1
        if hs2 = true ∧ silenceChunksThreshold < silent2 then (frames2, hs2)
        else autoLoop n rest frames2 silent2 hs2

/-- `record_audio_auto` (ai_necklace.py:967-1028): runs the loop, then
returns `None` exactly when no chunk ever exceeded the volume threshold.
The function never touches `is_recording`, so its event trace holds only
chunk reads. -/
def recordAudioAuto (steps : List AutoStep) : RecResult :=
  let r := autoLoop maxChunksAuto steps [] 0 false
  { frames := r.1,
    events := r.1.map (fun _ => .chunkRead),
    result := if r.2 = false then none else some r.1 }

/-!  ToolCallExtractor: the JSON-in-prose extraction of `get_ai_response`
(ai_necklace.py:1079-1122).  `json.loads` is modelled by a small JSON
parser restricted to objects, arrays, strings with common escapes,
integers, booleans and null; floats and \u escapes make it fail, which no
claim exercises.  The three `re.search` patterns are deterministic once
greedy character classes are resolved (each class excludes the character
the pattern requires next), so they are transcribed as maximal-munch
scanners. -/

/-- Parsed JSON values. -/
inductive JValue where
  | null
  | bool (b : Bool)
  | int (n : Int)
  | str (s : String)
  | obj (kvs : List (String × JValue))
  | arr (xs : List JValue)

/-- JSON whitespace. -/
def jws (c : Char) : Bool :=
  c = ' ' || c = '\t' || c = '\n' || c = '\r'

/-- JSON string body after the opening quote, with common escapes. -/
def jstrGo : List Char → List Char → Option (String × List Char)
  | [], _ => none
  | '"' :: r, acc => some (String.mk acc, r)
  | '\\' :: c :: r, acc =>
      (match c with
       | 'n' => some '\n'
       | 't' => some '\t'
       | 'r' => some '\r'
       | 'b' => some (Char.ofNat 8)
       | 'f' => some (Char.ofNat 12)
       | '"' => some '"'
       | '/' => some '/'
       | '\\' => some '\\'
       | _ => none).bind
        (fun e => jstrGo r (acc ++ [e]))
  | ['\\'], _ => none
  | c :: r, acc => jstrGo r (acc ++ [c])

/-- Value of a run of decimal digits. -/
def digitsToNat (l : List Char) : Nat :=
  l.foldl (fun acc c => acc * 10 + (c.toNat - 48)) 0

/-- JSON unsigned integer; a fraction or exponent is left unmodelled. -/
def jnumCore (l : List Char) : Option (Nat × List Char) :=
  let run := l.takeWhile Char.isDigit
  let rest := l.dropWhile Char.isDigit
  if run.isEmpty then none
  else
    match rest with
    | '.' :: _ => none
    | 'e' :: _ => none
    | 'E' :: _ => none
    | _ => some (digitsToNat run, rest)

/-- JSON number (integer only). -/
def jnum : List Char → Option (JValue × List Char)
  | '-' :: r => (jnumCore r).map (fun p => (.int (-(p.1 : Int)), p.2))
  | l => (jnumCore l).map (fun p => (.int (p.1 : Int), p.2))

mutual

/-- JSON value parser; the fuel argument strictly decreases on every
recursive call and is sized generously by `jsonLoads`. -/
def jparse : Nat → List Char → Option (JValue × List Char)
  | 0, _ => none
  | f + 1, l =>
      match l.dropWhile jws with
      | 'n' :: 'u' :: 'l' :: 'l' :: nrest => some (.null, nrest)
      | 't' :: 'r' :: 'u' :: 'e' :: trest => some (.bool true, trest)
      | 'f' :: 'a' :: 'l' :: 's' :: 'e' :: frest => some (.bool false, frest)
      | '"' :: qrest => (jstrGo qrest []).map (fun p => (.str p.1, p.2))
      | '\x7b' :: r =>
          (match r.dropWhile jws with
           | '\x7d' :: r2 => some (.obj [], r2)
           | _ => (jobjItems f r []).map (fun p => (.obj p.1, p.2)))
      | '[' :: r =>
          (match r.dropWhile jws with
           | ']' :: r2 => some (.arr [], r2)
           | _ => (jarrItems f r []).map (fun p => (.arr p.1, p.2)))
      | l2 => jnum l2

/-- Members of a JSON object after its opening brace. -/
def jobjItems : Nat → List Char → List (String × JValue) →
    Option (List (String × JValue) × List Char)
  | 0, _, _ => none
  | f + 1, l, acc =>
      match l.dropWhile jws with
      | '"' :: r =>
          (jstrGo r []).bind (fun ks =>
            match ks.2.dropWhile jws with
            | ':' :: r2 =>
                (jparse f r2).bind (fun pv =>
                  match pv.2.dropWhile jws with
                  | ',' :: r3 => jobjItems f r3 (acc ++ [(ks.1, pv.1)])
                  | '\x7d' :: r3 => some (acc ++ [(ks.1, pv.1)], r3)
                  | _ => none)
            | _ => none)
      | _ => none

/-- Elements of a JSON array after its opening bracket. -/
def jarrItems : Nat → List Char → List JValue →
    Option (List JValue × List Char)
  | 0, _, _ => none
  | f + 1, l, acc =>
      (jparse f l).bind (fun pv =>
        match pv.2.dropWhile jws with
        | ',' :: r => jarrItems f r (acc ++ [pv.1])
        | ']' :: r => some (acc ++ [pv.1], r)
        | _ => none)

end

/-- Model of `json.loads`: parse one value, then require only whitespace
after it. -/
def jsonLoads (l : List Char) : Option JValue :=
  match jparse (2 * l.length + 8) l with
  | some (v, rest) => if (rest.dropWhile jws).isEmpty then some v else none
  | none => none

/-- Python truthiness of a JSON-decoded value. -/
def jTruthy : JValue → Bool
  | .null => false
  | .bool b => b
  | .int n => n != 0
  | .str s => s != ""
  | .obj kvs => !kvs.isEmpty
  | .arr xs => !xs.isEmpty

/-- Python `key in dict` on a JSON-decoded object. -/
def jHasKey (k : String) : JValue → Bool
  | .obj kvs => kvs.any (fun p => p.1 == k)
  | _ => false

/-- Python `dict.get(key, default)` on decoded parameters; JSON gives the
last binding of a duplicated key. -/
def pyGet (kvs : List (String × JValue)) (k : String) (d : JValue) : JValue :=
  match kvs.reverse.find? (fun p => p.1 == k) with
  | some p => p.2
  | none => d

/-- Consume an exact literal, returning the remainder. -/
def litP : List Char → List Char → Option (List Char)
  | [], s => some s
  | p :: ps, c :: cs => if c = p then litP ps cs else none
  | _ :: _, [] => none

/-- Does `pat` occur at the start of `l`? -/
def prefixOfP (pat l : List Char) : Bool :=
  (litP pat l).isSome

/-- Does `pat` occur contiguously anywhere in the list (Python `in`)? -/
def seqContains (pat : List Char) : List Char → Bool
  | [] => prefixOfP pat []
  | c :: t => if prefixOfP pat (c :: t) then true else seqContains pat t

/-- The `\s` class of Python `re`. -/
def reWs (c : Char) : Bool :=
  c = ' ' || c = '\t' || c = '\n' || c = '\r' || c = '\x0b' || c = '\x0c'

/-- Not a brace (the `[^{}]` class). -/
def nonBrace (c : Char) : Bool :=
  !(c = '\x7b' || c = '\x7d')

/-- Pattern 1 (ai_necklace.py:1084) anchored at a position:
`\x7b"tool":\s*"[^"]+",\s*"params":\s*\x7b[^\x7b\x7d]*\x7d\x7d`.
Each greedy class here excludes the character the pattern needs next, so
maximal munch is exact. -/
def p1At (s : List Char) : Option (List Char) :=
  (litP ("\x7b\"tool\":".data) s).bind (fun s1 =>
  (litP ("\"".data) (s1.dropWhile reWs)).bind (fun s3 =>
  let run := s3.takeWhile (fun c => c ≠ '"')
  let s4 := s3.dropWhile (fun c => c ≠ '"')
  if run.isEmpty then none
  else
    (litP ("\",".data) s4).bind (fun s5 =>
    (litP ("\"params\":".data) (s5.dropWhile reWs)).bind (fun s7 =>
    (litP ("\x7b".data) (s7.dropWhile reWs)).bind (fun s9 =>
    litP ("\x7d\x7d".data) (s9.dropWhile nonBrace))))))

/-- Pattern 2 (ai_necklace.py:1087), identical but with `[^\x7d]*` inside
`params`. -/
def p2At (s : List Char) : Option (List Char) :=
  (litP ("\x7b\"tool\":".data) s).bind (fun s1 =>
  (litP ("\"".data) (s1.dropWhile reWs)).bind (fun s3 =>
  let run := s3.takeWhile (fun c => c ≠ '"')
  let s4 := s3.dropWhile (fun c => c ≠ '"')
  if run.isEmpty then none
  else
    (litP ("\",".data) s4).bind (fun s5 =>
    (litP ("\"params\":".data) (s5.dropWhile reWs)).bind (fun s7 =>
    (litP ("\x7b".data) (s7.dropWhile reWs)).bind (fun s9 =>
    litP ("\x7d\x7d".data) (s9.dropWhile (fun c => c ≠ '\x7d')))))))

/-- Pattern 3 (ai_necklace.py:1090): `\x7b[^\x7b\x7d]*"tool"[^\x7b\x7d]*\x7d`.
With backtracking resolved: since `"tool"` contains no brace, the pattern
matches at a position exactly when the brace-free run after `\x7b` contains
`"tool"` and is immediately followed by `\x7d`. -/
def p3At (s : List Char) : Option (List Char) :=
  match s with
  | [] => none
  | c :: s1 =>
      if c = '\x7b' then
        match s1.dropWhile nonBrace with
        | [] => none
        | d :: r2 =>
            if d = '\x7d' then
              (if seqContains ("\"tool\"".data) (s1.takeWhile nonBrace) then some r2
               else none)
            else none
      else none

/-- `re.search`: try the anchored matcher at each position, left to right;
returns the suffix at the match position and the remainder after it. -/
def searchP (m : List Char → Option (List Char)) :
    List Char → Option (List Char × List Char)
  | [] => (m []).map (fun r => (([] : List Char), r))
  | c :: t =>
      match m (c :: t) with
      | some r => some (c :: t, r)
      | none => searchP m t

/-- The characters a search match consumed. -/
def matchSpan (pr : List Char × List Char) : List Char :=
  pr.1.take (pr.1.length - pr.2.length)

/-- The three regex attempts in order (ai_necklace.py:1084-1090). -/
def reMatch (text : List Char) : Option (List Char × List Char) :=
  match searchP p1At text with
  | some r => some r
  | none =>
      match searchP p2At text with
      | some r => some r
      | none => searchP p3At text

/-- Regex stage result: parse the matched span if any
(ai_necklace.py:1093-1099). -/
def reStage (text : List Char) : Option JValue :=
  match reMatch text with
  | some pr => jsonLoads (matchSpan pr)
  | none => none

/-- Python `str.find`: suffix starting at the first occurrence of `pat`. -/
def findSub (pat : List Char) : List Char → Option (List Char)
  | [] => if prefixOfP pat [] then some [] else none
  | c :: t =>
      if prefixOfP pat (c :: t) then some (c :: t) else findSub pat t

/-- The brace-depth scan of the fallback (ai_necklace.py:1108-1120):
walk from the start index, tracking depth; each time a closing brace
returns the depth to zero, try to parse the span seen so far. -/
def braceScanGo (startSuffix : List Char) : Nat → Int → List Char → Option JValue
  | _, _, [] => none
  | i, depth, c :: rest =>
      if c = '\x7b' then braceScanGo startSuffix (i + 1) (depth + 1) rest
      else if c = '\x7d' then
        (if depth - 1 = 0 then
          match jsonLoads (startSuffix.take (i + 1)) with
          | some v => some v
          | none => braceScanGo startSuffix (i + 1) (depth - 1) rest
        else braceScanGo startSuffix (i + 1) (depth - 1) rest)
      else braceScanGo startSuffix (i + 1) depth rest

/-- The fallback stage (ai_necklace.py:1102-1120): only entered when the
literal `"tool"` occurs in the reply; starts at the first `\x7b"tool"`,
else the first `\x7b "tool"`. -/
def fallbackStage (text : List Char) : Option JValue :=
  if seqContains ("\"tool\"".data) text then
    match
      (match findSub ("\x7b\"tool\"".data) text with
       | some s => some s
       | none => findSub ("\x7b \"tool\"".data) text) with
    | some startSuf => braceScanGo startSuf 0 0 startSuf
    | none => none
  else none

/-- The extracted `tool_call` value: the regex stage if it produced a
truthy value, else the fallback (`if not tool_call and '"tool"' in ...`). -/
def findToolCall (text : List Char) : Option JValue :=
  match reStage text with
  | some v => if jTruthy v then some v else fallbackStage text
  | none => fallbackStage text

/-- The usable tool call of a reply: the pipeline's value if it passes
`if tool_call and 'tool' in tool_call` (ai_necklace.py:1122), else none
(the reply is treated as the final answer). -/
def extractToolCall (s : String) : Option JValue :=
  match findToolCall s.data with
  | some v => if jTruthy v && jHasKey "tool" v then some v else none
  | none => none

/-!  ConversationSession: the history handling of `get_ai_response`
(ai_necklace.py:1053-1151).  The chat service and the dispatcher are
oracles; requests record the history portion sent (the system prompt is
prepended to every request and is not a history turn). -/

/-- One role-tagged history turn. -/
structure TurnMsg where
  role : String
  content : String
deriving DecidableEq, Repr

/-- The truncation applied after appending the user turn
(ai_necklace.py:1063-1064): keep the last 10 turns when above 10. -/
def truncHist (l : List TurnMsg) : List TurnMsg :=
  if l.length > 10 then l.drop (l.length - 10) else l

/-- The synthetic user turn carrying a dispatcher result
(ai_necklace.py:1131). -/
def toolResultTurn (res : String) : TurnMsg :=
  ⟨"user", "ツール実行結果:\n" ++ res ++
    "\n\nこの結果を音声で読み上げるために、簡潔に日本語で要約してください。"⟩

/-- Oracle replies of the chat service and dispatcher for one turn. -/
structure ChatEnv where
  reply1 : String
  toolResult : String
  reply2 : String

/-- `get_ai_response` (ai_necklace.py:1053-1151): returns the spoken
reply, the new history, and the history portions of the chat requests
issued, in order. -/
def getAiResponse (hist : List TurnMsg) (text : String) (env : ChatEnv) :
    String × List TurnMsg × List (List TurnMsg) :=
  let h1 := hist ++ [⟨"user", text⟩]
  let h2 := truncHist h1
  let ai := env.reply1
  match extractToolCall ai with
  | some _ =>
      let h3 := h2 ++ [⟨"assistant", ai⟩, toolResultTurn env.toolResult]
      (env.reply2, h3 ++ [⟨"assistant", env.reply2⟩], [h2, h3])
  | none => (ai, h2 ++ [⟨"assistant", ai⟩], [h2])

/-!  ToolDispatcher: `execute_tool` (ai_necklace.py:788-855) and the Gmail
helpers it calls (the `gmail_list` of ai_necklace_gmail.py:191-243 is
identical to ai_necklace.py:473-524).  External calls are oracles in
`GmailEnv`; a Python exception that escapes a function is an `Except.error`
carrying the exception's class; a caught exception becomes the source's
failure string.  State that was already mutated when an exception is
caught is kept (the cache is threaded explicitly through `gmail_list`). -/

/-- Python exception classes relevant to the dispatcher. -/
inductive PyExc where
  | httpError
  | timeoutExpired
  | fileNotFound
  | attributeError
  | typeError
  | connectionError
deriving DecidableEq, Repr

/-- Rendering of an exception in an f-string (model of `str(e)`). -/
def PyExc.msg : PyExc → String
  | .httpError => "HttpError"
  | .timeoutExpired => "TimeoutExpired"
  | .fileNotFound => "FileNotFoundError"
  | .attributeError => "AttributeError"
  | .typeError => "TypeError"
  | .connectionError => "ConnectionError"

/-- One entry of `last_email_list` (ai_necklace.py:510-516). -/
structure EmailInfo where
  id : String
  from_name : String
  from_email : String
  subject : String
  date : String
deriving DecidableEq, Repr

/-- A message as returned by the service's `get` (headers as a dict built
later-binding-wins, thread id, decoded plain-text body). -/
structure MsgDetail where
  headers : List (String × String)
  threadId : Option String
  body : String
deriving DecidableEq, Repr

/-- Outcome of a completed `subprocess.run` of `rpicam-still`. -/
structure SubprocRes where
  returncode : Int
  stderr : String
deriving DecidableEq, Repr

/-- Oracles for every external call the dispatcher can make. -/
structure GmailEnv where
  serviceUp : Bool
  listCall : JValue → JValue → Except PyExc (List String)
  getMsg : JValue → Except PyExc MsgDetail
  sendCall : Except PyExc Unit
  camera : Except PyExc SubprocRes
  fileRead : Except PyExc String
  photoExists : Bool
  visionReply : Except PyExc String

/-- `headers.get(k, d)` on the header dict (later duplicate wins, as in
the Python dict comprehension). -/
def hGet (hs : List (String × String)) (k d : String) : String :=
  match hs.reverse.find? (fun p => p.1 == k) with
  | some p => p.2
  | none => d

/-- `headers.get(k)` returning `None` when absent. -/
def hFind (hs : List (String × String)) (k : String) : Option String :=
  (hs.reverse.find? (fun p => p.1 == k)).map (fun p => p.2)

/-- Python whitespace strip on a `String`. -/
def pyStripStr (s : String) : String :=
  String.mk (pyStrip s.data)

/-- The lazy scan of `re.match(r'(.+?)\s*<', s)`: the shortest nonempty
newline-free prefix followed by optional whitespace and `<`; returns the
group. -/
def fromNameScan : List Char → List Char → Option (List Char)
  | _, [] => none
  | acc, c :: rest =>
      if c = '\n' then none
      else
        match rest.dropWhile reWs with
        | '<' :: _ => some (acc ++ [c])
        | _ => fromNameScan (acc ++ [c]) rest

/-- Sender display name as computed by `gmail_list`
(ai_necklace.py:506-508): the stripped group, else the part of the header
before `@`. -/
def pyFromName (s : String) : String :=
  match fromNameScan [] s.data with
  | some g => pyStripStr (String.mk g)
  | none => String.mk (s.data.takeWhile (fun c => c ≠ '@'))

/-- Sender display name as computed by `gmail_read`
(ai_necklace.py:559-561): the fallback is the whole header. -/
def pyFromNameFull (s : String) : String :=
  match fromNameScan [] s.data with
  | some g => pyStripStr (String.mk g)
  | none => s

/-- The scan of `re.search(r'<([^>]+)>', s)`: leftmost `<` followed by a
nonempty `>`-free run and a `>`; returns the group. -/
def extractEmailScan : List Char → Option (List Char)
  | [] => none
  | '<' :: rest =>
      (match rest.dropWhile (fun c => c ≠ '>') with
       | '>' :: _ =>
           if (rest.takeWhile (fun c => c ≠ '>')).isEmpty then extractEmailScan rest
           else some (rest.takeWhile (fun c => c ≠ '>'))
       | _ => extractEmailScan rest)
  | _ :: rest => extractEmailScan rest

/-- `extract_email_address` (ai_necklace.py:676-687). -/
def extractEmailAddress (s : String) : Option String :=
  if s = "" then none
  else
    match extractEmailScan s.data with
    | some g => some (String.mk g)
    | none =>
        if s.data.contains '@' then some (pyStripStr s) else none

/-- f-string rendering of a decoded parameter value.  Non-scalar values
are not rendered precisely (no claim depends on them). -/
def pyStr : JValue → String
  | .str s => s
  | .int n => toString n
  | .bool b => if b then "True" else "False"
  | .null => "None"
  | .obj _ => "\x7b...\x7d"
  | .arr _ => "[...]"

/-- The detail-fetch loop of `gmail_list` (ai_necklace.py:495-519),
entered after `last_email_list` was reset to empty; an `HttpError` is
caught at the function boundary (keeping the cache built so far), any
other exception escapes. -/
def gmailListLoop (env : GmailEnv) :
    List String → Nat → List EmailInfo → List String →
    List EmailInfo × Except PyExc String
  | [], _, cache, disp =>
      (cache, .ok ("メール一覧:\n" ++ String.intercalate "\n" disp))
  | mid :: rest, i, cache, disp =>
      match env.getMsg (.str mid) with
      | .error e =>
          if e = .httpError then (cache, .ok ("メール取得エラー: " ++ e.msg))
          else (cache, .error e)
      | .ok d =>
          let fromHeader := hGet d.headers "From" "不明"
          let fromName := pyFromName fromHeader
          let info : EmailInfo :=
            { id := mid, from_name := fromName, from_email := fromHeader,
              subject := hGet d.headers "Subject" "(件名なし)",
              date := hGet d.headers "Date" "" }
          gmailListLoop env rest (i + 1) (cache ++ [info])
            (disp ++ [toString i ++ ". " ++ fromName ++ "さんから: " ++ info.subject])

/-- `gmail_list` (ai_necklace.py:473-524): returns the new
`last_email_list` and the outcome.  The cache is untouched while the
search returns no ids; it is reset to empty once at least one id was
found, before any detail is fetched. -/
def gmailList (env : GmailEnv) (query maxResults : JValue)
    (cache : List EmailInfo) : List EmailInfo × Except PyExc String :=
  if env.serviceUp = false then (cache, .ok "Gmail機能が初期化されていません")
  else
    match env.listCall query maxResults with
    | .error e =>
        if e = .httpError then (cache, .ok ("メール取得エラー: " ++ e.msg))
        else (cache, .error e)
    | .ok mids =>
        if mids.isEmpty then (cache, .ok "該当するメールはありません")
        else gmailListLoop env mids 1 [] []

/-- `gmail_read` (ai_necklace.py:527-566).  The base64 body decode is
abstracted into the oracle's `body`. -/
def gmailRead (env : GmailEnv) (msgId : JValue) : Except PyExc String :=
  if env.serviceUp = false then .ok "Gmail機能が初期化されていません"
  else
    match env.getMsg msgId with
    | .error e =>
        if e = .httpError then .ok ("メール読み取りエラー: " ++ e.msg)
        else .error e
    | .ok d =>
        let body :=
          if d.body.length > 500 then String.mk (d.body.data.take 500) ++ "...(以下省略)"
          else d.body
        .ok ("送信者: " ++ pyFromNameFull (hGet d.headers "From" "不明") ++
          "\n件名: " ++ hGet d.headers "Subject" "(件名なし)" ++ "\n\n本文:\n" ++ body)

/-- `gmail_send` (ai_necklace.py:569-591).  `MIMEText(body)` raises
`AttributeError` unless the body is a string (`None.encode`); a
non-string destination or subject is modelled as raising while the
message is serialized.  Only `HttpError` is caught. -/
def gmailSend (env : GmailEnv) (toArg subject body : JValue) : Except PyExc String :=
  if env.serviceUp = false then .ok "Gmail機能が初期化されていません"
  else
    match body with
    | .str _ =>
        match toArg, subject with
        | .str toStr, .str _ =>
            (match env.sendCall with
             | .error e =>
                 if e = .httpError then .ok ("メール送信エラー: " ++ e.msg)
                 else .error e
             | .ok _ => .ok (toStr ++ "にメールを送信しました"))
        | _, _ => .error .typeError
    | _ => .error .attributeError

/-- The reply destination or-chain of `gmail_reply` (ai_necklace.py:723):
`to_email or headers.get('Reply-To') or headers.get('From', '')`, with
Python falsy `None`/`""` collapsing to the empty string. -/
def replyToRaw (toEmail : Option String) (hs : List (String × String)) : String :=
  let t1 := match toEmail with | some s => s | none => ""
  let t2 := match hFind hs "Reply-To" with | some s => s | none => ""
  if t1 ≠ "" then t1 else if t2 ≠ "" then t2 else hGet hs "From" ""

/-- The body handed to `MIMEText` in `gmail_reply`: with a photo,
`body or "写真を送ります。"`; without, `body` itself (ai_necklace.py:748,760). -/
def replyBodyVal (photo : Bool) (body : JValue) : JValue :=
  if photo then (if jTruthy body then body else .str "写真を送ります。") else body

/-- Message construction and send of `gmail_reply` (ai_necklace.py:738-780):
`MIMEText` raises unless its payload is a string; with a photo the image
file is read (a failure propagates); only `HttpError` of the send is
caught. -/
def gmailReplySend (env : GmailEnv) (photo : Bool) (body : JValue)
    (toAddr : String) : Except PyExc String :=
  match replyBodyVal photo body with
  | .str _ =>
      (match (if photo then env.fileRead else .ok "") with
       | .error e => .error e
       | .ok _ =>
           match env.sendCall with
           | .error e =>
               if e = .httpError then .ok ("返信エラー: " ++ e.msg)
               else .error e
           | .ok _ =>
               if photo then .ok (pyFromName toAddr ++ "さんに写真付きで返信しました")
               else .ok (pyFromName toAddr ++ "さんに返信を送信しました"))
  | _ => .error .attributeError

/-- Destination resolution of `gmail_reply` (ai_necklace.py:723-727). -/
def gmailReplyAfterMsg (env : GmailEnv) (photo : Bool) (body : JValue)
    (toEmail : Option String) (hs : List (String × String)) : Except PyExc String :=
  match extractEmailAddress (replyToRaw toEmail hs) with
  | none => .ok "返信先のメールアドレスが取得できませんでした"
  | some toAddr => gmailReplySend env photo body toAddr

/-- The part of `gmail_reply` after the camera step (ai_necklace.py:712-780):
fetch the original, resolve the destination, build and send the message. -/
def gmailReplyCore (env : GmailEnv) (photo : Bool) (msgId body : JValue)
    (toEmail : Option String) : Except PyExc String :=
  match env.getMsg msgId with
  | .error e =>
      if e = .httpError then .ok ("返信エラー: " ++ e.msg)
      else .error e
  | .ok orig => gmailReplyAfterMsg env photo body toEmail orig.headers

/-- `gmail_reply` (ai_necklace.py:690-785).  Catches only
`subprocess.TimeoutExpired` and `HttpError`; a missing camera binary, a
failing image-file read, or a non-string body propagate.  The `Re:`
subject prefix and threading headers only shape the sent message and are
not observable here. -/
def gmailReply (env : GmailEnv) (msgId body : JValue) (toEmail : Option String)
    (attachPhoto : JValue) : Except PyExc String :=
  if env.serviceUp = false then .ok "Gmail機能が初期化されていません"
  else
    let photo := jTruthy attachPhoto
    match (if photo then env.camera else .ok { returncode := 0, stderr := "" }) with
    | .error .timeoutExpired => .ok "カメラの撮影がタイムアウトしました"
    | .error e => .error e
    | .ok cam =>
        if photo ∧ cam.returncode ≠ 0 then
          .ok ("写真の撮影に失敗しました: " ++ cam.stderr)
        else gmailReplyCore env photo msgId body toEmail

/-- `camera_capture` (ai_necklace.py:358-388): every failure is caught
and mapped to a description. -/
def cameraCapture (env : GmailEnv) : Except String String :=
  match env.camera with
  | .error .timeoutExpired => .error "カメラの撮影がタイムアウトしました"
  | .error .fileNotFound =>
      .error "rpicam-stillコマンドが見つかりません。カメラが正しく設定されていない可能性があります"
  | .error e => .error ("カメラエラー: " ++ e.msg)
  | .ok r =>
      if r.returncode ≠ 0 then .error "カメラでの撮影に失敗しました"
      else
        match env.fileRead with
        | .error e => .error ("カメラエラー: " ++ e.msg)
        | .ok img => .ok img

/-- `camera_describe` (ai_necklace.py:391-430): total — the vision call
is wrapped in a catch-all. -/
def cameraDescribe (env : GmailEnv) (_prompt : JValue) : String :=
  match cameraCapture env with
  | .error err => err
  | .ok _ =>
      match env.visionReply with
      | .error e => "画像解析エラー: " ++ e.msg
      | .ok s => s

/-- The exception chain of `gmail_send_photo` (ai_necklace.py:666-673):
every exception class maps to a failure string. -/
def sendPhotoCatch : PyExc → String
  | .timeoutExpired => "カメラの撮影がタイムアウトしました"
  | .fileNotFound => "カメラが見つかりません"
  | .httpError => "メール送信エラー: " ++ PyExc.httpError.msg
  | e => "写真付きメール送信エラー: " ++ e.msg

/-- `gmail_send_photo` (ai_necklace.py:594-673): total — its catch chain
ends in `except Exception`. -/
def gmailSendPhoto (env : GmailEnv) (toArg subject body takePhoto : JValue)
    (cache : List EmailInfo) : String :=
  if env.serviceUp = false then "Gmail機能が初期化されていません"
  else
    let toRes : Except String JValue :=
      if jTruthy toArg then .ok toArg
      else
        match cache with
        | [] => .error "送信先が指定されていません。先に「メールを確認して」と言うか、宛先を指定してください。"
        | first :: _ =>
            match extractEmailAddress first.from_email with
            | none => .error "直前のメール送信者のアドレスが取得できませんでした"
            | some t => .ok (.str t)
    match toRes with
    | .error s => s
    | .ok toVal =>
        let photoStep : Option String :=
          if jTruthy takePhoto then
            match env.camera with
            | .error e => some (sendPhotoCatch e)
            | .ok r =>
                if r.returncode ≠ 0 then some ("写真の撮影に失敗しました: " ++ r.stderr)
                else none
          else
            if env.photoExists = false then
              some "送信する写真がありません。先に写真を撮影してください。"
            else none
        match photoStep with
        | some s => s
        | none =>
            if jTruthy body && (match body with | .str _ => false | _ => true) then
              sendPhotoCatch .attributeError
            else
              match env.fileRead with
              | .error e => sendPhotoCatch e
              | .ok _ =>
                  match toVal, subject with
                  | .str t, .str _ =>
                      (match env.sendCall with
                       | .error e => sendPhotoCatch e
                       | .ok _ => pyFromName t ++ "さんに写真付きメールを送信しました")
                  | _, _ => sendPhotoCatch .typeError

/-- Python `str.isdigit` (ASCII model). -/
def isDigitStr (s : String) : Bool :=
  !s.data.isEmpty && s.data.all Char.isDigit

/-- The message-number resolution of `execute_tool`
(ai_necklace.py:803, 821): `isinstance(msg_id, int)` (a Python bool is an
int) or a digit string; `none` means the value is passed through. -/
def resolveMsgNum : JValue → Option Int
  | .int n => some n
  | .bool b => some (if b then 1 else 0)
  | .str s => if isDigitStr s then some ((digitsToNat s.data : Int)) else none
  | _ => none

/-- Python `int(x)` on a decoded parameter (for `alarm_delete`). -/
def pyIntOf : JValue → Option Int
  | .int n => some n
  | .bool b => some (if b then 1 else 0)
  | .str s => pyInt s
  | _ => none

/-- `alarm_list` (ai_necklace.py:265-277). -/
def alarmListStr (l : List Alarm) : String :=
  if l.isEmpty then "設定されているアラームはありません。"
  else
    pyStripStr ("アラーム一覧:\n" ++
      String.join (l.map (fun a =>
        toString a.id ++ ". " ++ a.time ++ " - " ++ a.label ++ " (" ++
          (if a.enabled then "有効" else "無効") ++ ")\n")))

/-- The dispatcher-visible global state: `last_email_list` plus the alarm
globals. -/
structure NeckState where
  cache : List EmailInfo
  alarmSt : AlarmState
deriving DecidableEq, Repr

/-- A decoded tool call: `tool_call.get('tool')` and
`tool_call.get('params', \x7b\x7d)` (assumed to be a mapping, per the
ToolCall data model). -/
structure ToolCallArg where
  tool : JValue
  params : List (String × JValue)

/-- Python `==` between a decoded value and a string literal. -/
def isToolName (v : JValue) (s : String) : Bool :=
  match v with
  | .str t => t == s
  | _ => false

/-- A default cache entry for guarded indexing. -/
def dummyEmail : EmailInfo :=
  { id := "", from_name := "", from_email := "", subject := "", date := "" }

/-- `execute_tool` (ai_necklace.py:788-855): dispatch on the tool name;
`nowIso` stands for `datetime.now().isoformat()` in `alarm_set`. -/
def executeTool (tc : ToolCallArg) (env : GmailEnv) (st : NeckState)
    (nowIso : String) : NeckState × Except PyExc String :=
  let params := tc.params
  if isToolName tc.tool "gmail_list" then
    let r := gmailList env (pyGet params "query" (.str "is:unread"))
      (pyGet params "max_results" (.int 5)) st.cache
    ({ st with cache := r.1 }, r.2)
  else if isToolName tc.tool "gmail_read" then
    let msgId := pyGet params "message_id" .null
    match resolveMsgNum msgId with
    | some n =>
        if 0 ≤ n - 1 ∧ n - 1 < (st.cache.length : Int) then
          (st, gmailRead env (.str (st.cache.getD (n - 1).toNat dummyEmail).id))
        else (st, .ok "指定されたメールが見つかりません")
    | none => (st, gmailRead env msgId)
  else if isToolName tc.tool "gmail_send" then
    (st, gmailSend env (pyGet params "to" .null) (pyGet params "subject" .null)
      (pyGet params "body" .null))
  else if isToolName tc.tool "gmail_reply" then
    let msgId := pyGet params "message_id" .null
    let attachPhoto := pyGet params "attach_photo" (.bool false)
    match resolveMsgNum msgId with
    | some n =>
        if 0 ≤ n - 1 ∧ n - 1 < (st.cache.length : Int) then
          let entry := st.cache.getD (n - 1).toNat dummyEmail
          (st, gmailReply env (.str entry.id) (pyGet params "body" .null)
            (some entry.from_email) attachPhoto)
        else (st, .ok "指定されたメールが見つかりません。先に「メールを確認して」と言ってください。")
    | none =>
        (st, gmailReply env msgId (pyGet params "body" .null) none attachPhoto)
  else if isToolName tc.tool "alarm_set" then
    match pyGet params "time" .null with
    | .str t =>
        let labelStr := pyStr (pyGet params "label" (.str "アラーム"))
        let msgV := pyGet params "message" (.str "")
        let msgStr := if jTruthy msgV then pyStr msgV else ""
        let r := alarmSet t labelStr msgStr nowIso st.alarmSt
        ({ st with alarmSt := r.2 }, .ok r.1)
    | _ =>
        (st, .ok "時刻の形式が不正です。HH:MM形式（例: 07:00）で指定してください。")
  else if isToolName tc.tool "alarm_list" then
    (st, .ok (alarmListStr st.alarmSt.alarms))
  else if isToolName tc.tool "alarm_delete" then
    match pyIntOf (pyGet params "alarm_id" .null) with
    | none => (st, .ok "アラームIDは数字で指定してください。")
    | some n =>
        let r := alarmDeleteCore n st.alarmSt
        ({ st with alarmSt := r.2 }, .ok r.1)
  else if isToolName tc.tool "camera_capture" then
    (st, .ok (cameraDescribe env
      (pyGet params "prompt" (.str "この画像に何が写っていますか？簡潔に説明してください。"))))
  else if isToolName tc.tool "gmail_send_photo" then
    (st, .ok (gmailSendPhoto env (pyGet params "to" .null)
      (pyGet params "subject" (.str "写真を送ります"))
      (pyGet params "body" (.str "")) (pyGet params "take_photo" (.bool true)) st.cache))
  else
    (st, .ok ("不明なツール: " ++ pyStr tc.tool))

/-- The tameness condition under which the amended dispatcher claim holds:
every email-collaborator failure is an `HttpError`, a camera failure is a
timeout, and the image file is readable. -/
def EnvTame (env : GmailEnv) : Prop :=
  (∀ q m e, env.listCall q m = .error e → e = .httpError) ∧
  (∀ v e, env.getMsg v = .error e → e = .httpError) ∧
  (∀ e, env.sendCall = .error e → e = .httpError) ∧
  (∀ e, env.camera = .error e → e = .timeoutExpired) ∧
  (∀ e, env.fileRead ≠ .error e)

/-- A decoded parameter that is present and a string. -/
def StrParam (params : List (String × JValue)) (k : String) : Prop :=
  ∃ s, pyGet params k .null = .str s

/-- Whether a dispatcher outcome is a returned string (no exception). -/
def isOkE : Except PyExc String → Bool
  | .ok _ => true
  | .error _ => false

/-- The exception class of a dispatcher outcome, if any escaped. -/
def errOf : Except PyExc String → Option PyExc
  | .ok _ => none
  | .error e => some e

/-- A concrete message detail used by witness environments. -/
def wMsgDetail : MsgDetail :=
  { headers := [("From", "Alice <a@x.com>"), ("Subject", "Hi")],
    threadId := some "t", body := "hello" }

/-- A concrete environment in which every external call succeeds. -/
def wTameEnv : GmailEnv :=
  { serviceUp := true,
    listCall := fun _ _ => .ok ["m1"],
    getMsg := fun _ => .ok wMsgDetail,
    sendCall := .ok (),
    camera := .ok { returncode := 0, stderr := "" },
    fileRead := .ok "img",
    photoExists := true,
    visionReply := .ok "desc" }

/-- An empty dispatcher state. -/
def wNeckSt : NeckState := { cache := [], alarmSt := { alarms := [], nextId := 1 } }

/-- An environment whose message search fails with a non-HttpError
(e.g. a dropped connection). -/
def cexEnvC2 : GmailEnv := { wTameEnv with listCall := fun _ _ => .error .connectionError }

/-- A previously cached listing, for the cache-frame claim. -/
def c10Prev : List EmailInfo :=
  [{ id := "old", from_name := "B", from_email := "B <b@y.com>", subject := "S", date := "" }]

/-- An environment whose search succeeds but whose detail fetch fails
with an `HttpError`. -/
def c10EnvDetailFail : GmailEnv := { wTameEnv with getMsg := fun _ => .error .httpError }

/-- An environment whose search request itself fails with an `HttpError`. -/
def c10EnvListFail : GmailEnv := { wTameEnv with listCall := fun _ _ => .error .httpError }

/-- The worked extraction example of the specification (spec §8). -/
def c9Example : String :=
  "Here you go \x7b\"tool\":\"gmail_list\",\"params\":\x7b\"query\":\"is:unread\",\"max_results\":3\x7d\x7d thanks"

/-- A chat oracle whose first reply embeds a tool call. -/
def cEnvTool : ChatEnv :=
  { reply1 := "\x7b\"tool\":\"alarm_list\",\"params\":\x7b\x7d\x7d",
    toolResult := "設定されているアラームはありません。",
    reply2 := "アラームはありません。" }

/-- Three consecutive tool-handling turns from an empty history. -/
def c1Turn1 : String × List TurnMsg × List (List TurnMsg) :=
  getAiResponse [] "アラームを確認して" cEnvTool

/-- Second turn, from the first turn's history. -/
def c1Turn2 : String × List TurnMsg × List (List TurnMsg) :=
  getAiResponse c1Turn1.2.1 "二回目" cEnvTool

/-- Third turn, from the second turn's history. -/
def c1Turn3 : String × List TurnMsg × List (List TurnMsg) :=
  getAiResponse c1Turn2.2.1 "三回目" cEnvTool

/-!  Theorems.  Helper lemmas come first, then one theorem per claim
(with its witness and counterexample where required). -/

theorem parseHM_fmt : ∀ h : Nat, h < 24 → ∀ m : Nat, m < 60 →
    parseHM (fmtHHMM h m) = some ((h : Int), (m : Int)) := by decide

theorem alarmSet_nextId (t l m c : String) (st : AlarmState) :
    (alarmSet t l m c st).2.nextId = st.nextId ∨
      (alarmSet t l m c st).2.nextId = st.nextId + 1 := by
  unfold alarmSet
  cases hp : parseHM t with
  | none => exact Or.inl rfl
  | some p =>
      obtain ⟨h, mm⟩ := p
      by_cases hc : 0 ≤ h ∧ h ≤ 23 ∧ 0 ≤ mm ∧ mm ≤ 59
      · simp [hc]
      · simp [hc]

theorem alarmStep_set (st : AlarmState) (t l m c : String) :
    alarmStep st (.set t l m c) =
      ((alarmSet t l m c st).2,
       if (alarmSet t l m c st).2.nextId = st.nextId + 1 then some st.nextId
       else none) := rfl

theorem alarmStep_del (st : AlarmState) (n : Int) :
    alarmStep st (.del n) = ((alarmDeleteCore n st).2, none) := rfl

theorem alarmStep_nextId_le (st : AlarmState) (op : AlarmOp) :
    st.nextId ≤ (alarmStep st op).1.nextId := by
  cases op with
  | set t l m c =>
      show st.nextId ≤ (alarmSet t l m c st).2.nextId
      rcases alarmSet_nextId t l m c st with h | h <;> omega
  | del n =>
      show st.nextId ≤ (alarmDeleteCore n st).2.nextId
      unfold alarmDeleteCore
      cases removeFirstById n st.alarms <;> simp

theorem alarmStep_assigned (st : AlarmState) (op : AlarmOp) (a : Nat)
    (h : (alarmStep st op).2 = some a) :
    a = st.nextId ∧ st.nextId + 1 ≤ (alarmStep st op).1.nextId := by
  cases op with
  | set t l m c =>
      rw [alarmStep_set] at h ⊢
      by_cases hc : (alarmSet t l m c st).2.nextId = st.nextId + 1
      · rw [if_pos hc] at h
        exact ⟨(Option.some_injective _ h).symm, by simp [hc]⟩
      · rw [if_neg hc] at h
        exact Option.noConfusion h
  | del n =>
      rw [alarmStep_del] at h
      exact Option.noConfusion h

theorem runAlarmOps_cons (st : AlarmState) (op : AlarmOp) (rest : List AlarmOp) :
    runAlarmOps st (op :: rest) =
      ((runAlarmOps (alarmStep st op).1 rest).1,
       (alarmStep st op).2.toList ++ (runAlarmOps (alarmStep st op).1 rest).2) := rfl

theorem runAlarmOps_lb (ops : List AlarmOp) (st : AlarmState) :
    st.nextId ≤ (runAlarmOps st ops).1.nextId ∧
      ∀ a ∈ (runAlarmOps st ops).2, st.nextId ≤ a := by
  induction ops generalizing st with
  | nil => simp [runAlarmOps]
  | cons op rest ih =>
      rw [runAlarmOps_cons]
      obtain ⟨ih1, ih2⟩ := ih (alarmStep st op).1
      have hle := alarmStep_nextId_le st op
      constructor
      · exact le_trans hle ih1
      · intro a ha
        simp only [List.mem_append] at ha
        rcases ha with ha | ha
        · cases hstep : (alarmStep st op).2 with
          | none => simp [hstep] at ha
          | some b =>
              simp [hstep] at ha
              subst ha
              exact (alarmStep_assigned st op a hstep).1.symm.le
        · exact le_trans hle (ih2 a ha)

/-- C3: for every strict `HH:MM` string in 00:00-23:59, `alarm_set` appends a
new alarm and returns the success message; and whenever the code's
validation fails (the string does not parse as two in-range Python ints),
it returns one of the two validation-error strings and leaves the alarm
list and the next-id counter unchanged.  (Amended from the claim: the
failure set is "does not parse as two in-range ints", not "everything but
strict HH:MM" — see the counterexample.) -/
theorem C3_alarm_set_validation :
    (∀ h m : Nat, h < 24 → m < 60 → ∀ label msg c : String, ∀ st : AlarmState,
        alarmSet (fmtHHMM h m) label msg c st =
          (fmtHHMM h m ++ "に「" ++ label ++ "」のアラームを設定しました。",
           { alarms := st.alarms ++
               [{ id := st.nextId, time := fmtHHMM h m, label := label,
                  message := if msg = "" then label ++ "の時間です" else msg,
                  enabled := true, createdAt := c }],
             nextId := st.nextId + 1 })) ∧
    (∀ s label msg c : String, ∀ st : AlarmState, setTimeValid s = false →
        (alarmSet s label msg c st).2 = st ∧
        ((alarmSet s label msg c st).1 =
            "時刻の形式が不正です。HH:MM形式（例: 07:00）で指定してください。" ∨
         (alarmSet s label msg c st).1 =
            "時刻が不正です。00:00〜23:59の形式で指定してください。")) := by
  constructor
  · intro h m hh hm label msg c st
    have hcond : (0 : Int) ≤ (h : Int) ∧ (h : Int) ≤ 23 ∧
        (0 : Int) ≤ (m : Int) ∧ (m : Int) ≤ 59 := by
      refine ⟨by positivity, ?_, by positivity, ?_⟩
      · exact_mod_cast Nat.le_of_lt_succ hh
      · exact_mod_cast Nat.le_of_lt_succ hm
    unfold alarmSet
    rw [parseHM_fmt h hh m hm]
    simp only [if_pos hcond]
  · intro s label msg c st hbad
    unfold setTimeValid at hbad
    unfold alarmSet
    cases hp : parseHM s with
    | none => exact ⟨rfl, Or.inl rfl⟩
    | some p =>
        rw [hp] at hbad
        obtain ⟨h, mm⟩ := p
        have hc : ¬(0 ≤ h ∧ h ≤ 23 ∧ 0 ≤ mm ∧ mm ≤ 59) := by
          simpa using hbad
        simp [hc]

/-- C3 witness: a concrete strict time succeeds and appends; a concrete
out-of-range time mutates nothing. -/
theorem C3_alarm_set_validation_witness :
    alarmSet (fmtHHMM 7 5) "起床" "" "t0" ⟨[], 1⟩ =
      (fmtHHMM 7 5 ++ "に「" ++ "起床" ++ "」のアラームを設定しました。",
       { alarms := [] ++
           [{ id := 1, time := fmtHHMM 7 5, label := "起床",
              message := if "" = "" then "起床" ++ "の時間です" else "",
              enabled := true, createdAt := "t0" }],
         nextId := 1 + 1 }) ∧
    (alarmSet "99:00" "a" "" "t0" ⟨[], 3⟩).2 = (⟨[], 3⟩ : AlarmState) := by
  constructor
  · exact C3_alarm_set_validation.1 7 5 (by decide) (by decide) "起床" "" "t0" ⟨[], 1⟩
  · exact (C3_alarm_set_validation.2 "99:00" "a" "" "t0" ⟨[], 3⟩ (by decide)).1

/-- C3 counterexample: "7:5" is not a strict `HH:MM` string (the claim
says every such string must fail without mutation), yet `alarm_set`
accepts it, appends an alarm, and returns the success message. -/
theorem C3_alarm_set_validation_cex :
    specStrictHHMM "7:5" = false ∧
    (alarmSet "7:5" "起床" "" "t0" ⟨[], 1⟩).2.alarms.length = 1 ∧
    (alarmSet "7:5" "起床" "" "t0" ⟨[], 1⟩).1 =
      "7:5に「起床」のアラームを設定しました。" := by decide

/-- C4: over any sequence of `alarm_set`/`alarm_delete` operations from
any starting state, the ids assigned by successful sets are strictly
increasing — every new id is strictly greater than every previously
assigned id, and ids are never reused even after deletes. -/
theorem C4_alarm_ids_monotone (st : AlarmState) (ops : List AlarmOp) :
    List.Pairwise (· < ·) (runAlarmOps st ops).2 := by
  induction ops generalizing st with
  | nil => simp [runAlarmOps]
  | cons op rest ih =>
      rw [runAlarmOps_cons]
      refine List.pairwise_append.mpr ⟨?_, ih (alarmStep st op).1, ?_⟩
      · cases hstep : (alarmStep st op).2 <;> simp
      · intro a ha b hb
        cases hstep : (alarmStep st op).2 with
        | none => simp [hstep] at ha
        | some v =>
            simp [hstep] at ha
            subst ha
            obtain ⟨hv, hnext⟩ := alarmStep_assigned st op a hstep
            have := (runAlarmOps_lb rest (alarmStep st op).1).2 b hb
            omega

theorem alarmsPass_recording (now : String) (l : List Alarm)
    (lt : List (Nat × String)) : (alarmsPass now true l lt).2 = [] := by
  induction l generalizing lt with
  | nil => rfl
  | cons a rest ih =>
      unfold alarmsPass
      by_cases h1 : a.enabled = false
      · simp only [if_pos h1]; exact ih lt
      · simp only [if_neg h1]
        by_cases h2 : (a.id, now) ∈ lt
        · simp only [if_pos h2]; exact ih lt
        · simp only [if_neg h2]
          by_cases h3 : a.time = now
          · simp only [if_pos h3, if_pos rfl, List.nil_append]
            exact ih (lt ++ [(a.id, now)])
          · simp only [if_neg h3]; exact ih lt

theorem alarmsPass_keyMono (now : String) (rec : Bool) (l : List Alarm)
    (lt : List (Nat × String)) (k : Nat × String) (hk : k ∈ lt) :
    k ∈ (alarmsPass now rec l lt).1 := by
  induction l generalizing lt with
  | nil => exact hk
  | cons a rest ih =>
      unfold alarmsPass
      by_cases h1 : a.enabled = false
      · simp only [if_pos h1]; exact ih lt hk
      · simp only [if_neg h1]
        by_cases h2 : (a.id, now) ∈ lt
        · simp only [if_pos h2]; exact ih lt hk
        · simp only [if_neg h2]
          by_cases h3 : a.time = now
          · simp only [if_pos h3]
            exact ih (lt ++ [(a.id, now)]) (List.mem_append_left _ hk)
          · simp only [if_neg h3]; exact ih lt hk

theorem alarmsPass_noPlayOfKey (now : String) (rec : Bool) (l : List Alarm)
    (lt : List (Nat × String)) (i : Nat) (hk : (i, now) ∈ lt) (msg : String) :
    (i, msg) ∉ (alarmsPass now rec l lt).2 := by
  induction l generalizing lt with
  | nil => simp [alarmsPass]
  | cons a rest ih =>
      unfold alarmsPass
      by_cases h1 : a.enabled = false
      · simp only [if_pos h1]; exact ih lt hk
      · simp only [if_neg h1]
        by_cases h2 : (a.id, now) ∈ lt
        · simp only [if_pos h2]; exact ih lt hk
        · simp only [if_neg h2]
          by_cases h3 : a.time = now
          · simp only [if_pos h3]
            have hne : a.id ≠ i := fun he => h2 (he ▸ hk)
            intro hmem
            rcases List.mem_append.mp hmem with hA | hB
            · cases rec with
              | true => simp at hA
              | false =>
                  simp at hA
                  exact hne hA.1.symm
            · exact ih (lt ++ [(a.id, now)]) (List.mem_append_left _ hk) hB
          · simp only [if_neg h3]; exact ih lt hk

theorem alarmsPass_reach (now : String) (rec : Bool) (l : List Alarm)
    (lt : List (Nat × String)) (a : Alarm) (ha : a ∈ l)
    (hen : a.enabled = true) (hdue : a.time = now)
    (huniq : l.Pairwise (fun x y => x.id ≠ y.id))
    (hfresh : (a.id, now) ∉ lt) :
    (a.id, now) ∈ (alarmsPass now rec l lt).1 := by
  induction l generalizing lt with
  | nil => exact absurd ha (List.not_mem_nil a)
  | cons b rest ih =>
      unfold alarmsPass
      rcases List.mem_cons.mp ha with hab | hmem
      · subst hab
        rw [if_neg (by simp [hen]), if_neg hfresh, if_pos hdue]
        exact alarmsPass_keyMono now rec rest _ _
          (List.mem_append_right _ (List.mem_singleton.mpr rfl))
      · have hbid : b.id ≠ a.id := (List.pairwise_cons.mp huniq).1 a hmem
        have htail := (List.pairwise_cons.mp huniq).2
        by_cases h1 : b.enabled = false
        · simp only [if_pos h1]; exact ih lt hmem htail hfresh
        · simp only [if_neg h1]
          by_cases h2 : (b.id, now) ∈ lt
          · simp only [if_pos h2]; exact ih lt hmem htail hfresh
          · simp only [if_neg h2]
            by_cases h3 : b.time = now
            · simp only [if_pos h3]
              refine ih (lt ++ [(b.id, now)]) hmem htail ?_
              intro hmem2
              rcases List.mem_append.mp hmem2 with h | h
              · exact hfresh h
              · exact hbid (congrArg Prod.fst (List.mem_singleton.mp h)).symm
            · simp only [if_neg h3]; exact ih lt hmem htail hfresh

theorem alarmsPass_playSrc (now : String) (rec : Bool) (l : List Alarm)
    (lt : List (Nat × String)) (i : Nat) (msg : String)
    (h : (i, msg) ∈ (alarmsPass now rec l lt).2) :
    rec = false ∧ ∃ b ∈ l, b.id = i ∧ b.time = now ∧ b.enabled = true ∧
      msg = "アラームです。" ++ b.message := by
  induction l generalizing lt with
  | nil => simp [alarmsPass] at h
  | cons a rest ih =>
      unfold alarmsPass at h
      by_cases h1 : a.enabled = false
      · rw [if_pos h1] at h
        obtain ⟨hr, b, hb, hrest⟩ := ih lt h
        exact ⟨hr, b, List.mem_cons_of_mem a hb, hrest⟩
      · rw [if_neg h1] at h
        by_cases h2 : (a.id, now) ∈ lt
        · rw [if_pos h2] at h
          obtain ⟨hr, b, hb, hrest⟩ := ih lt h
          exact ⟨hr, b, List.mem_cons_of_mem a hb, hrest⟩
        · rw [if_neg h2] at h
          by_cases h3 : a.time = now
          · rw [if_pos h3] at h
            rcases List.mem_append.mp h with hA | hB
            · cases rec with
              | true => simp at hA
              | false =>
                  simp at hA
                  exact ⟨rfl, a, List.mem_cons_self a rest, hA.1.symm, h3,
                    eq_true_of_ne_false h1, hA.2⟩
            · obtain ⟨hr, b, hb, hrest⟩ := ih (lt ++ [(a.id, now)]) hB
              exact ⟨hr, b, List.mem_cons_of_mem a hb, hrest⟩
          · rw [if_neg h3] at h
            obtain ⟨hr, b, hb, hrest⟩ := ih lt h
            exact ⟨hr, b, List.mem_cons_of_mem a hb, hrest⟩

theorem alarmsPass_playOccurs (now : String) (l : List Alarm)
    (lt : List (Nat × String)) (a : Alarm) (ha : a ∈ l)
    (hen : a.enabled = true) (hdue : a.time = now)
    (huniq : l.Pairwise (fun x y => x.id ≠ y.id))
    (hfresh : (a.id, now) ∉ lt) :
    (a.id, "アラームです。" ++ a.message) ∈ (alarmsPass now false l lt).2 := by
  induction l generalizing lt with
  | nil => exact absurd ha (List.not_mem_nil a)
  | cons b rest ih =>
      unfold alarmsPass
      rcases List.mem_cons.mp ha with hab | hmem
      · subst hab
        rw [if_neg (by simp [hen]), if_neg hfresh, if_pos hdue]
        simp
      · have hbid : b.id ≠ a.id := (List.pairwise_cons.mp huniq).1 a hmem
        have htail := (List.pairwise_cons.mp huniq).2
        by_cases h1 : b.enabled = false
        · rw [if_pos h1]; exact ih lt hmem htail hfresh
        · rw [if_neg h1]
          by_cases h2 : (b.id, now) ∈ lt
          · rw [if_pos h2]; exact ih lt hmem htail hfresh
          · rw [if_neg h2]
            by_cases h3 : b.time = now
            · rw [if_pos h3]
              refine List.mem_append_right _ (ih (lt ++ [(b.id, now)]) hmem htail ?_)
              intro hmem2
              rcases List.mem_append.mp hmem2 with h | h
              · exact hfresh h
              · exact hbid (congrArg Prod.fst (List.mem_singleton.mp h)).symm
            · rw [if_neg h3]; exact ih lt hmem htail hfresh

theorem alarmsPass_cnt (now : String) (rec : Bool) (l : List Alarm)
    (lt : List (Nat × String)) (i : Nat) (hfresh : (i, now) ∉ lt) :
    (alarmsPass now rec l lt).2.countP (fun p => p.1 == i) ≤ 1 ∧
      (1 ≤ (alarmsPass now rec l lt).2.countP (fun p => p.1 == i) →
        (i, now) ∈ (alarmsPass now rec l lt).1) := by
  induction l generalizing lt with
  | nil => simp [alarmsPass]
  | cons a rest ih =>
      unfold alarmsPass
      by_cases h1 : a.enabled = false
      · rw [if_pos h1]; exact ih lt hfresh
      · rw [if_neg h1]
        by_cases h2 : (a.id, now) ∈ lt
        · rw [if_pos h2]; exact ih lt hfresh
        · rw [if_neg h2]
          by_cases h3 : a.time = now
          · rw [if_pos h3]
            by_cases hid : a.id = i
            · subst hid
              have hkey : (a.id, now) ∈ lt ++ [(a.id, now)] :=
                List.mem_append_right _ (List.mem_singleton.mpr rfl)
              have hzero : ((alarmsPass now rec rest (lt ++ [(a.id, now)])).2.countP
                  (fun p => p.1 == a.id)) = 0 := by
                rw [List.countP_eq_zero]
                intro p hp hbeq
                have hpi : p.1 = a.id := by simpa using hbeq
                obtain ⟨p1, p2⟩ := p
                simp only at hpi
                subst hpi
                exact alarmsPass_noPlayOfKey now rec rest _ _ hkey p2 hp
              have hmemfin : (a.id, now) ∈ (alarmsPass now rec rest (lt ++ [(a.id, now)])).1 :=
                alarmsPass_keyMono now rec rest _ _ hkey
              cases rec with
              | true =>
                  constructor
                  · simp [List.countP_append, hzero]
                  · intro _; exact hmemfin
              | false =>
                  constructor
                  · simp [List.countP_append, hzero, List.countP_cons]
                  · intro _; exact hmemfin
            · have hfresh2 : (i, now) ∉ lt ++ [(a.id, now)] := by
                intro hmem2
                rcases List.mem_append.mp hmem2 with h | h
                · exact hfresh h
                · exact hid (congrArg Prod.fst (List.mem_singleton.mp h)).symm
              obtain ⟨ihc, ihm⟩ := ih (lt ++ [(a.id, now)]) hfresh2
              have hheadzero :
                  ((if rec = true then [] else [(a.id, "アラームです。" ++ a.message)]).countP
                    (fun p => p.1 == i)) = 0 := by
                cases rec with
                | true => simp
                | false => simp [List.countP_cons, hid]
              constructor
              · rw [List.countP_append, hheadzero]; simpa using ihc
              · intro hone
                rw [List.countP_append, hheadzero] at hone
                exact ihm (by simpa using hone)
          · rw [if_neg h3]; exact ih lt hfresh

theorem checkTick_keyMem (alarms : List Alarm) (now : String) (rec : Bool)
    (lt : List (Nat × String)) (i : Nat)
    (hk : (i, now) ∈ (alarmsPass now rec alarms lt).1) :
    (i, now) ∈ (checkTick alarms now rec lt).1 := by
  unfold checkTick
  exact List.mem_filter.mpr ⟨hk, by simp⟩

theorem checkTick_keys (alarms : List Alarm) (now : String) (rec : Bool)
    (lt : List (Nat × String)) (k : Nat × String)
    (hk : k ∈ (checkTick alarms now rec lt).1) : k.2 = now := by
  unfold checkTick at hk
  have := (List.mem_filter.mp hk).2
  simpa using this

theorem runTicks_cons (alarms : List Alarm) (t : SchedTick) (rest : List SchedTick)
    (lt : List (Nat × String)) :
    runTicks alarms (t :: rest) lt =
      ((runTicks alarms rest (checkTick alarms t.now t.recording lt).1).1,
       (checkTick alarms t.now t.recording lt).2 ++
         (runTicks alarms rest (checkTick alarms t.now t.recording lt).1).2) := rfl

theorem runTicks_cnt (alarms : List Alarm) (now : String) (i : Nat)
    (ticks : List SchedTick) (lt : List (Nat × String))
    (hall : ∀ t ∈ ticks, t.now = now) :
    (runTicks alarms ticks lt).2.countP (fun p => p.1 == i) ≤ 1 ∧
      ((i, now) ∈ lt → (runTicks alarms ticks lt).2.countP (fun p => p.1 == i) = 0) := by
  induction ticks generalizing lt with
  | nil => simp [runTicks]
  | cons t rest ih =>
      obtain ⟨tn, trec⟩ := t
      have htn : tn = now := hall _ (List.mem_cons_self _ rest)
      subst htn
      have hall2 : ∀ u ∈ rest, u.now = tn :=
        fun u hu => hall u (List.mem_cons_of_mem _ hu)
      rw [runTicks_cons, List.countP_append]
      obtain ⟨ihc, ihz⟩ := ih (checkTick alarms tn trec lt).1 hall2
      by_cases hk : (i, tn) ∈ lt
      · have h0 : (checkTick alarms tn trec lt).2.countP (fun p => p.1 == i) = 0 := by
          rw [List.countP_eq_zero]
          intro p hp hbeq
          have hpi : p.1 = i := by simpa using hbeq
          unfold checkTick at hp
          refine alarmsPass_noPlayOfKey tn trec alarms lt i hk p.2 ?_
          rw [← hpi, Prod.mk.eta]
          exact hp
        have hkmem : (i, tn) ∈ (checkTick alarms tn trec lt).1 :=
          checkTick_keyMem alarms tn trec lt i
            (alarmsPass_keyMono tn trec alarms lt _ hk)
        constructor
        · rw [h0]; simpa using ihc
        · intro _; rw [h0, ihz hkmem]
      · obtain ⟨pc, pm⟩ := alarmsPass_cnt tn trec alarms lt i hk
        have hpass : (checkTick alarms tn trec lt).2 =
            (alarmsPass tn trec alarms lt).2 := rfl
        rw [hpass]
        constructor
        · rcases Nat.eq_zero_or_pos ((alarmsPass tn trec alarms lt).2.countP
              (fun p => p.1 == i)) with hz | hpos
          · rw [hz]; simpa using ihc
          · have hkmem : (i, tn) ∈ (checkTick alarms tn trec lt).1 :=
              checkTick_keyMem alarms tn trec lt i (pm hpos)
            rw [ihz hkmem]
            omega
        · intro hmem; exact absurd hmem hk

/-- C6: when an enabled alarm is due on a tick while the recording flag is
true, that tick produces no notification at all, yet the per-alarm-per-
minute key is recorded; any later tick of the same minute whose state
holds that key produces no notification for this alarm (the skipped
notification is never queued or retried); and ticks at non-matching
minutes never produce a notification for this alarm, so its next possible
notification is at its next matching minute. -/
theorem C6_recording_skip (alarms : List Alarm) (a : Alarm) (now : String)
    (lt : List (Nat × String)) (ha : a ∈ alarms) (hen : a.enabled = true)
    (hdue : a.time = now) (hfresh : (a.id, now) ∉ lt)
    (huniq : alarms.Pairwise (fun x y => x.id ≠ y.id)) :
    (checkTick alarms now true lt).2 = [] ∧
    (a.id, now) ∈ (checkTick alarms now true lt).1 ∧
    (∀ lt2 : List (Nat × String), ∀ rec2 : Bool, ∀ msg : String,
      (a.id, now) ∈ lt2 → (a.id, msg) ∉ (checkTick alarms now rec2 lt2).2) ∧
    (∀ now2 : String, ∀ rec2 : Bool, ∀ lt2 : List (Nat × String), ∀ msg : String,
      a.time ≠ now2 → (a.id, msg) ∉ (checkTick alarms now2 rec2 lt2).2) := by
  refine ⟨alarmsPass_recording now alarms lt, ?_, ?_, ?_⟩
  · exact checkTick_keyMem alarms now true lt a.id
      (alarmsPass_reach now true alarms lt a ha hen hdue huniq hfresh)
  · intro lt2 rec2 msg hk
    exact alarmsPass_noPlayOfKey now rec2 alarms lt2 a.id hk msg
  · intro now2 rec2 lt2 msg hne hmem
    obtain ⟨_, b, hb, hbid, hbtime, _, _⟩ :=
      alarmsPass_playSrc now2 rec2 alarms lt2 a.id msg hmem
    rcases eq_or_ne b a with hba | hba
    · subst hba; exact hne hbtime
    · exact (List.Pairwise.forall (fun x y h => Ne.symm h) huniq hb ha hba) hbid

/-- C6 witness: one alarm due at 07:00 while recording — the tick is
silent, the key is recorded, the same minute is not retried, and no
notification happens at 08:00. -/
theorem C6_recording_skip_witness :
    (checkTick [⟨1, "07:00", "起床", "起きて", true, "t"⟩] "07:00" true []).2 = [] ∧
    (1, "07:00") ∈ (checkTick [⟨1, "07:00", "起床", "起きて", true, "t"⟩] "07:00" true []).1 ∧
    (1, "アラームです。起きて") ∉
      (checkTick [⟨1, "07:00", "起床", "起きて", true, "t"⟩] "07:00" false [(1, "07:00")]).2 ∧
    (1, "アラームです。起きて") ∉
      (checkTick [⟨1, "07:00", "起床", "起きて", true, "t"⟩] "08:00" false []).2 := by
  obtain ⟨w1, w2, w3, w4⟩ := C6_recording_skip [⟨1, "07:00", "起床", "起きて", true, "t"⟩]
    ⟨1, "07:00", "起床", "起きて", true, "t"⟩ "07:00" []
    (List.mem_singleton.mpr rfl) rfl rfl (by simp) (by simp)
  exact ⟨w1, w2, w3 [(1, "07:00")] false _ (by simp), w4 "08:00" false [] _ (by decide)⟩

/-- C7: an enabled alarm fires at most once over any run of ticks within
one wall-clock minute; and after any tick of a different minute, the next
non-recording tick of the alarm's minute fires it again (the dedup key is
cleared when the minute rolls over). -/
theorem C7_once_per_minute (alarms : List Alarm) (a : Alarm) (now : String)
    (ha : a ∈ alarms) (hen : a.enabled = true) (hdue : a.time = now)
    (huniq : alarms.Pairwise (fun x y => x.id ≠ y.id)) :
    (∀ ticks : List SchedTick, ∀ lt : List (Nat × String),
      (∀ t ∈ ticks, t.now = now) →
      (runTicks alarms ticks lt).2.countP (fun p => p.1 == a.id) ≤ 1) ∧
    (∀ now2 : String, ∀ rec2 : Bool, ∀ lt : List (Nat × String), now2 ≠ now →
      (a.id, "アラームです。" ++ a.message) ∈
        (checkTick alarms now false (checkTick alarms now2 rec2 lt).1).2) := by
  constructor
  · intro ticks lt hall
    exact (runTicks_cnt alarms now a.id ticks lt hall).1
  · intro now2 rec2 lt hne
    have hfresh : (a.id, now) ∉ (checkTick alarms now2 rec2 lt).1 := by
      intro hmem
      exact hne (checkTick_keys alarms now2 rec2 lt _ hmem).symm
    exact alarmsPass_playOccurs now alarms _ a ha hen hdue huniq hfresh

/-- C7 witness: two ticks in the same minute fire the alarm once; after a
tick in the next minute, a tick back at the matching minute fires again. -/
theorem C7_once_per_minute_witness :
    (runTicks [⟨1, "07:00", "起床", "起きて", true, "t"⟩]
        [⟨"07:00", false⟩, ⟨"07:00", false⟩] []).2.countP (fun p => p.1 == 1) ≤ 1 ∧
    (1, "アラームです。起きて") ∈
      (checkTick [⟨1, "07:00", "起床", "起きて", true, "t"⟩] "07:00" false
        (checkTick [⟨1, "07:00", "起床", "起きて", true, "t"⟩] "07:01" false
          [(1, "07:00")]).1).2 := by
  obtain ⟨w1, w2⟩ := C7_once_per_minute [⟨1, "07:00", "起床", "起きて", true, "t"⟩]
    ⟨1, "07:00", "起床", "起きて", true, "t"⟩ "07:00"
    (List.mem_singleton.mpr rfl) rfl rfl (by simp)
  exact ⟨w1 [⟨"07:00", false⟩, ⟨"07:00", false⟩] [] (by decide),
    w2 "07:01" false [(1, "07:00")] (by decide)⟩

theorem holdLoop_reads (steps : List HoldStep) (frames : List Nat) :
    ∀ e ∈ (holdLoop steps frames).2, e = RecEv.chunkRead := by
  induction steps generalizing frames with
  | nil => simp [holdLoop]
  | cons s rest ih =>
      unfold holdLoop
      split_ifs with h1 h2 h3 h4 h5 h6
      · simp
      · simp
      · simp
      · simp
      · simp
      · intro e he
        rcases List.mem_cons.mp he with hA | hB
        · exact hA
        · exact ih (frames ++ [s.vol]) e hB
      · exact ih frames

theorem autoLoop_decomp (fuel : Nat) (steps : List AutoStep) (frames : List Nat)
    (silent : Nat) (hs : Bool) :
    ∃ new : List Nat, (autoLoop fuel steps frames silent hs).1 = frames ++ new ∧
      (autoLoop fuel steps frames silent hs).2 =
        (hs || new.any (fun v => decide (silenceThreshold < v))) := by
  induction fuel generalizing steps frames silent hs with
  | zero => exact ⟨[], by simp [autoLoop]⟩
  | succ n ih =>
      cases steps with
      | nil => exact ⟨[], by simp [autoLoop]⟩
      | cons s rest =>
          unfold autoLoop
          by_cases h1 : s.running = false
          · rw [if_pos h1]
            exact ⟨[], by simp⟩
          · rw [if_neg h1]
            by_cases h2 : (if silenceThreshold < s.vol then true else hs) = true ∧
                silenceChunksThreshold < (if silenceThreshold < s.vol then 0 else silent + 1)
            · rw [if_pos h2]
              refine ⟨[s.vol], rfl, ?_⟩
              by_cases hv : silenceThreshold < s.vol
              · simp [hv]
              · simp [hv]
            · rw [if_neg h2]
              obtain ⟨new2, hf, hh⟩ := ih rest (frames ++ [s.vol])
                (if silenceThreshold < s.vol then 0 else silent + 1)
                (if silenceThreshold < s.vol then true else hs)
              refine ⟨s.vol :: new2, by simpa using hf, ?_⟩
              rw [hh]
              by_cases hv : silenceThreshold < s.vol
              · simp [hv]
              · simp [hv]

/-- C5: corrected minimum-length contract.  Hold-to-talk returns no
session exactly when fewer than 5 chunks were captured; auto mode returns
no session exactly when no chunk ever exceeded the volume threshold —
the 5-chunk minimum does not apply to auto mode (see the
counterexample). -/
theorem C5_short_capture :
    (∀ steps : List HoldStep,
      (recordAudioWhilePressed steps).result = none ↔
        (recordAudioWhilePressed steps).frames.length < 5) ∧
    (∀ steps : List AutoStep,
      (recordAudioAuto steps).result = none ↔
        ∀ v ∈ (recordAudioAuto steps).frames, v ≤ silenceThreshold) := by
  constructor
  · intro steps
    unfold recordAudioWhilePressed
    by_cases h : (holdLoop steps []).1.length < 5
    · simp [h]
    · simp [h]
  · intro steps
    obtain ⟨new, hf, hh⟩ := autoLoop_decomp maxChunksAuto steps [] 0 false
    show (if (autoLoop maxChunksAuto steps [] 0 false).2 = false then none
          else some (autoLoop maxChunksAuto steps [] 0 false).1) = none ↔
        ∀ v ∈ (autoLoop maxChunksAuto steps [] 0 false).1, v ≤ silenceThreshold
    rw [hf, hh]
    simp only [List.nil_append, Bool.false_or]
    by_cases h : new.any (fun v => decide (silenceThreshold < v)) = true
    · constructor
      · intro hco
        rw [h] at hco
        simp at hco
      · intro hall
        rw [List.any_eq_true] at h
        obtain ⟨v, hv, hvt⟩ := h
        exact absurd (hall v hv) (by simpa using hvt)
    · have h2 : new.any (fun v => decide (silenceThreshold < v)) = false :=
        Bool.eq_false_iff.mpr h
      have hall : ∀ v ∈ new, v ≤ silenceThreshold := by
        intro v hv
        by_contra hgt
        have hx : new.any (fun v => decide (silenceThreshold < v)) = true :=
          List.any_eq_true.mpr ⟨v, hv, by simpa using Nat.lt_of_not_le hgt⟩
        simp [hx] at h2
      constructor
      · intro _; exact hall
      · intro _; simp [h2]

/-- C5 witness: a 1-chunk hold capture returns no session; a silent auto
capture returns no session. -/
theorem C5_short_capture_witness :
    (recordAudioWhilePressed
      [⟨true, false, false, true, false, 700⟩,
       ⟨true, false, true, false, false, 0⟩]).result = none ∧
    (recordAudioAuto [⟨true, 0⟩, ⟨false, 0⟩]).result = none :=
  ⟨(C5_short_capture.1 _).mpr (by decide), (C5_short_capture.2 _).mpr (by decide)⟩

/-- C5 counterexample: an auto-mode capture of a single loud chunk —
fewer than 5 chunks — still returns a session, refuting the claim that
every sub-5-chunk capture returns none under every triggering policy. -/
theorem C5_short_capture_cex :
    (recordAudioAuto [⟨true, 1000⟩, ⟨false, 0⟩]).frames.length = 1 ∧
    (recordAudioAuto [⟨true, 1000⟩, ⟨false, 0⟩]).result = some [1000] := by decide

/-- C8: corrected flag contract.  Hold-to-talk sets the mutex-guarded
recording flag before any chunk is read and clears it after the last
read; auto mode never writes the flag at all (the original claim said
both policies do). -/
theorem C8_flag_duration :
    (∀ steps : List HoldStep, ∃ mid : List RecEv,
      (recordAudioWhilePressed steps).events =
        .flagWrite true :: (mid ++ [.flagWrite false]) ∧
      ∀ e ∈ mid, e = RecEv.chunkRead) ∧
    (∀ steps : List AutoStep, ∀ b : Bool,
      RecEv.flagWrite b ∉ (recordAudioAuto steps).events) := by
  constructor
  · intro steps
    exact ⟨(holdLoop steps []).2, rfl, holdLoop_reads steps []⟩
  · intro steps b hmem
    have hmem2 : RecEv.flagWrite b ∈
        ((autoLoop maxChunksAuto steps [] 0 false).1.map (fun _ => RecEv.chunkRead)) := hmem
    obtain ⟨x, hx, he⟩ := List.mem_map.mp hmem2
    exact RecEv.noConfusion he

/-- C8 witness: a concrete hold capture's event trace starts with the
flag being set and ends with it being cleared. -/
theorem C8_flag_duration_witness :
    (recordAudioWhilePressed [⟨true, false, false, true, false, 700⟩]).events.head? =
      some (RecEv.flagWrite true) ∧
    (recordAudioWhilePressed [⟨true, false, false, true, false, 700⟩]).events.getLast? =
      some (RecEv.flagWrite false) := by
  obtain ⟨mid, hev, hmid⟩ := C8_flag_duration.1 [⟨true, false, false, true, false, 700⟩]
  rw [hev]
  constructor
  · rfl
  · rw [← List.cons_append, List.getLast?_concat]

/-- C8 counterexample: an auto-mode capture reads a chunk and returns a
session while its event trace holds no write of the recording flag —
refuting the claim that the flag is set around each capture under either
policy. -/
theorem C8_flag_duration_cex :
    (recordAudioAuto [⟨true, 600⟩, ⟨false, 0⟩]).events = [RecEv.chunkRead] ∧
    (recordAudioAuto [⟨true, 600⟩, ⟨false, 0⟩]).result = some [600] := by decide

theorem litP_append (pat : List Char) (s r : List Char)
    (h : litP pat s = some r) : s = pat ++ r := by
  induction pat generalizing s with
  | nil =>
      simp [litP] at h
      simp [h]
  | cons p ps ih =>
      cases s with
      | nil => simp [litP] at h
      | cons c cs =>
          unfold litP at h
          by_cases hc : c = p
          · rw [if_pos hc] at h
            rw [hc, List.cons_append]
            exact congrArg _ (ih cs h)
          · rw [if_neg hc] at h
            exact Option.noConfusion h

theorem litP_self (pat r : List Char) : litP pat (pat ++ r) = some r := by
  induction pat with
  | nil => rfl
  | cons p ps ih => simp [litP, ih]

theorem prefixOfP_of_eq (pat r l : List Char) (h : l = pat ++ r) :
    prefixOfP pat l = true := by
  subst h
  simp [prefixOfP, litP_self]

theorem prefixOfP_decomp (pat l : List Char) (h : prefixOfP pat l = true) :
    ∃ r, l = pat ++ r := by
  unfold prefixOfP at h
  cases hl : litP pat l with
  | none => rw [hl] at h; simp at h
  | some r => exact ⟨r, litP_append pat l r hl⟩

theorem seqContains_iff (pat l : List Char) :
    seqContains pat l = true ↔ ∃ x y, l = x ++ pat ++ y := by
  induction l with
  | nil =>
      constructor
      · intro h
        unfold seqContains at h
        obtain ⟨r, hr⟩ := prefixOfP_decomp pat [] h
        exact ⟨[], r, by simpa using hr⟩
      · intro ⟨x, y, hxy⟩
        unfold seqContains
        have hlen : pat.length = 0 := by
          have hl2 := congrArg List.length hxy
          simp at hl2
          omega
        have hnil := List.eq_nil_of_length_eq_zero hlen
        subst hnil
        simp [prefixOfP, litP]
  | cons c t ih =>
      constructor
      · intro h
        unfold seqContains at h
        by_cases hp : prefixOfP pat (c :: t) = true
        · obtain ⟨r, hr⟩ := prefixOfP_decomp pat (c :: t) hp
          exact ⟨[], r, by simpa using hr⟩
        · rw [if_neg (by simpa using hp)] at h
          obtain ⟨x, y, hxy⟩ := ih.mp h
          exact ⟨c :: x, y, by simp [hxy]⟩
      · intro ⟨x, y, hxy⟩
        unfold seqContains
        by_cases hp : prefixOfP pat (c :: t) = true
        · rw [if_pos (by simpa using hp)]
        · rw [if_neg (by simpa using hp)]
          cases x with
          | nil =>
              exact absurd (prefixOfP_of_eq pat y (c :: t) (by simpa using hxy)) hp
          | cons c2 x2 =>
              simp only [List.cons_append, List.cons.injEq] at hxy
              exact ih.mpr ⟨x2, y, hxy.2⟩

theorem searchP_decomp (m : List Char → Option (List Char)) (s : List Char)
    (pr : List Char × List Char) (h : searchP m s = some pr) :
    (∃ pre, s = pre ++ pr.1) ∧ m pr.1 = some pr.2 := by
  induction s with
  | nil =>
      unfold searchP at h
      cases hm : m [] with
      | none => rw [hm] at h; exact Option.noConfusion h
      | some r =>
          rw [hm] at h
          have hpr : pr = ([], r) := by simpa using h.symm
          subst hpr
          exact ⟨⟨[], rfl⟩, by rw [hm]⟩
  | cons c t ih =>
      unfold searchP at h
      cases hm : m (c :: t) with
      | some r =>
          rw [hm] at h
          have hpr : pr = (c :: t, r) := by simpa using h.symm
          subst hpr
          exact ⟨⟨[], rfl⟩, by rw [hm]⟩
      | none =>
          rw [hm] at h
          obtain ⟨⟨pre, hpre⟩, hmm⟩ := ih h
          exact ⟨⟨c :: pre, by simp [hpre]⟩, hmm⟩

theorem p1At_contains (s r : List Char) (h : p1At s = some r) :
    seqContains ("tool".data) s = true := by
  unfold p1At at h
  obtain ⟨s1, h1, _⟩ := Option.bind_eq_some.mp h
  have hs := litP_append _ s s1 h1
  refine (seqContains_iff _ s).mpr ⟨['\x7b', '"'], ['"', ':'] ++ s1, ?_⟩
  rw [hs]
  rfl

theorem p2At_contains (s r : List Char) (h : p2At s = some r) :
    seqContains ("tool".data) s = true := by
  unfold p2At at h
  obtain ⟨s1, h1, _⟩ := Option.bind_eq_some.mp h
  have hs := litP_append _ s s1 h1
  refine (seqContains_iff _ s).mpr ⟨['\x7b', '"'], ['"', ':'] ++ s1, ?_⟩
  rw [hs]
  rfl

theorem p3At_contains (s r : List Char) (h : p3At s = some r) :
    seqContains ("tool".data) s = true := by
  cases s with
  | nil => exact Option.noConfusion h
  | cons c s1 =>
      simp only [p3At] at h
      by_cases hc : c = '\x7b'
      · rw [if_pos hc] at h
        cases hrest : s1.dropWhile nonBrace with
        | nil => rw [hrest] at h; exact Option.noConfusion h
        | cons d r2 =>
            rw [hrest] at h
            replace h : (if d = '\x7d' then
                (if seqContains ("\"tool\"".data) (s1.takeWhile nonBrace) = true
                 then some r2 else none)
              else none) = some r := h
            by_cases hd : d = '\x7d'
            · rw [if_pos hd] at h
              by_cases hcond :
                  seqContains ("\"tool\"".data) (s1.takeWhile nonBrace) = true
              · subst hc
                obtain ⟨x, y, hxy⟩ := (seqContains_iff _ _).mp hcond
                refine (seqContains_iff _ _).mpr
                  ⟨'\x7b' :: x ++ ['"'], ['"'] ++ (y ++ s1.dropWhile nonBrace), ?_⟩
                have hsplit : s1 = s1.takeWhile nonBrace ++ s1.dropWhile nonBrace :=
                  (List.takeWhile_append_dropWhile nonBrace s1).symm
                have hq : ("\"tool\"".data) = '"' :: ("tool".data ++ ['"']) := rfl
                rw [show ('\x7b' :: s1 : List Char) = '\x7b' :: s1 from rfl]
                conv_lhs => rw [hsplit, hxy, hq]
                simp [List.append_assoc]
              · rw [if_neg (by simpa using hcond)] at h
                exact Option.noConfusion h
            · rw [if_neg hd] at h
              exact Option.noConfusion h
      · rw [if_neg hc] at h
        exact Option.noConfusion h

theorem seqContains_quoted (text : List Char)
    (h : seqContains ("\"tool\"".data) text = true) :
    seqContains ("tool".data) text = true := by
  obtain ⟨x, y, hxy⟩ := (seqContains_iff _ _).mp h
  refine (seqContains_iff _ _).mpr ⟨x ++ ['"'], ['"'] ++ y, ?_⟩
  rw [hxy]
  have hq : ("\"tool\"".data) = '"' :: ("tool".data ++ ['"']) := rfl
  rw [hq]
  simp [List.append_assoc]

theorem searchP_none (m : List Char → Option (List Char)) (text : List Char)
    (hmat : ∀ s r, m s = some r → seqContains ("tool".data) s = true)
    (hno : seqContains ("tool".data) text = false) : searchP m text = none := by
  cases hs : searchP m text with
  | none => rfl
  | some pr =>
      obtain ⟨⟨pre, hpre⟩, hmm⟩ := searchP_decomp m text pr hs
      have hc := hmat pr.1 pr.2 hmm
      have htext : seqContains ("tool".data) text = true := by
        rw [hpre]
        obtain ⟨x, y, hxy⟩ := (seqContains_iff _ _).mp hc
        exact (seqContains_iff _ _).mpr
          ⟨pre ++ x, y, by rw [hxy]; simp [List.append_assoc]⟩
      rw [htext] at hno
      exact Bool.noConfusion hno

theorem extractToolCall_noTool (s : String)
    (hno : seqContains ("tool".data) s.data = false) : extractToolCall s = none := by
  have h1 : searchP p1At s.data = none := searchP_none _ _ p1At_contains hno
  have h2 : searchP p2At s.data = none := searchP_none _ _ p2At_contains hno
  have h3 : searchP p3At s.data = none := searchP_none _ _ p3At_contains hno
  have hre : reMatch s.data = none := by
    unfold reMatch
    rw [h1, h2, h3]
  have hrs : reStage s.data = none := by
    unfold reStage
    rw [hre]
  have hq : seqContains ("\"tool\"".data) s.data = false := by
    cases hqq : seqContains ("\"tool\"".data) s.data with
    | false => rfl
    | true =>
        have := seqContains_quoted s.data hqq
        rw [this] at hno
        exact Bool.noConfusion hno
  have hfb : fallbackStage s.data = none := by
    unfold fallbackStage
    rw [hq]
    rfl
  have hftc : findToolCall s.data = none := by
    unfold findToolCall
    rw [hrs, hfb]
  unfold extractToolCall
  rw [hftc]

/-- C9: the extractor, given the worked example reply, extracts exactly the
gmail_list tool call with parameters query "is:unread" and max_results 3;
and for every reply not containing the substring "tool", extraction yields
no tool call (the reply is used as the final answer). -/
theorem C9_extractor :
    extractToolCall c9Example =
      some (.obj [("tool", .str "gmail_list"),
        ("params", .obj [("query", .str "is:unread"), ("max_results", .int 3)])]) ∧
    (∀ s : String, seqContains ("tool".data) s.data = false →
      extractToolCall s = none) :=
  ⟨rfl, extractToolCall_noTool⟩

/-- C9 witness: a concrete plain-prose reply extracts nothing. -/
theorem C9_extractor_witness :
    seqContains ("tool".data) "こんにちは、いい天気ですね。".data = false ∧
    extractToolCall "こんにちは、いい天気ですね。" = none :=
  ⟨by decide, C9_extractor.2 _ (by decide)⟩

theorem truncHist_le10 (l : List TurnMsg) : (truncHist l).length ≤ 10 := by
  unfold truncHist
  by_cases h : l.length > 10
  · rw [if_pos h]
    simp only [List.length_drop]
    omega
  · rw [if_neg h]
    omega

/-- C1: corrected history bound.  The truncation to the last 10 turns
happens only when the user turn is appended, so the first chat request
always carries at most 10 history turns; but the tool path appends three
more turns without truncation, so a request can carry up to 12 turns and
the stored history up to 13 (the claim said never more than 10). -/
theorem C1_history_bound (hist : List TurnMsg) (text : String) (env : ChatEnv) :
    (getAiResponse hist text env).2.2.head? =
      some (truncHist (hist ++ [⟨"user", text⟩])) ∧
    (truncHist (hist ++ [⟨"user", text⟩])).length ≤ 10 ∧
    (∀ req ∈ (getAiResponse hist text env).2.2, req.length ≤ 12) ∧
    (getAiResponse hist text env).2.1.length ≤ 13 := by
  have hb := truncHist_le10 (hist ++ [⟨"user", text⟩])
  simp only [getAiResponse]
  cases hx : extractToolCall env.reply1 with
  | some tc =>
      refine ⟨rfl, hb, ?_, ?_⟩
      · intro req hreq
        simp only [List.mem_cons, List.not_mem_nil, or_false] at hreq
        rcases hreq with h | h
        · subst h; omega
        · subst h
          simp only [List.length_append, List.length_cons, List.length_nil]
          omega
      · show (truncHist (hist ++ [TurnMsg.mk "user" text]) ++
            [TurnMsg.mk "assistant" env.reply1, toolResultTurn env.toolResult] ++
            [TurnMsg.mk "assistant" env.reply2]).length ≤ 13
        simp only [List.length_append, List.length_cons, List.length_nil]
        omega
  | none =>
      refine ⟨rfl, hb, ?_, ?_⟩
      · intro req hreq
        simp only [List.mem_cons, List.not_mem_nil, or_false] at hreq
        subst hreq
        omega
      · show (truncHist (hist ++ [TurnMsg.mk "user" text]) ++
            [TurnMsg.mk "assistant" env.reply1]).length ≤ 13
        simp only [List.length_append, List.length_cons, List.length_nil]
        omega

theorem gmailListLoop_ok (env : GmailEnv)
    (htame : ∀ v e, env.getMsg v = .error e → e = .httpError) :
    ∀ mids : List String, ∀ i : Nat, ∀ cache : List EmailInfo, ∀ disp : List String,
      ∃ s, (gmailListLoop env mids i cache disp).2 = .ok s := by
  intro mids
  induction mids with
  | nil => exact fun i cache disp => ⟨_, rfl⟩
  | cons mid rest ih =>
      intro i cache disp
      unfold gmailListLoop
      cases hg : env.getMsg (.str mid) with
      | error e =>
          have he := htame _ _ hg
          subst he
          exact ⟨_, rfl⟩
      | ok d =>
          exact ih (i + 1) _ _

theorem gmailList_ok (env : GmailEnv)
    (htameL : ∀ q m e, env.listCall q m = .error e → e = .httpError)
    (htameG : ∀ v e, env.getMsg v = .error e → e = .httpError)
    (q m : JValue) (cache : List EmailInfo) :
    ∃ s, (gmailList env q m cache).2 = .ok s := by
  unfold gmailList
  by_cases hup : env.serviceUp = false
  · rw [if_pos hup]; exact ⟨_, rfl⟩
  · rw [if_neg hup]
    cases hl : env.listCall q m with
    | error e =>
        have he := htameL _ _ _ hl
        subst he
        exact ⟨_, rfl⟩
    | ok mids =>
        show ∃ s, (if mids.isEmpty = true
            then ((cache, Except.ok "該当するメールはありません") :
              List EmailInfo × Except PyExc String)
            else gmailListLoop env mids 1 [] []).2 = Except.ok s
        by_cases hm : mids.isEmpty = true
        · rw [if_pos hm]
          exact ⟨_, rfl⟩
        · rw [if_neg hm]
          exact gmailListLoop_ok env htameG mids 1 [] []

theorem gmailRead_ok (env : GmailEnv)
    (htameG : ∀ v e, env.getMsg v = .error e → e = .httpError) (msgId : JValue) :
    ∃ s, gmailRead env msgId = .ok s := by
  unfold gmailRead
  by_cases hup : env.serviceUp = false
  · rw [if_pos hup]; exact ⟨_, rfl⟩
  · rw [if_neg hup]
    cases hg : env.getMsg msgId with
    | error e =>
        have he := htameG _ _ hg
        subst he
        exact ⟨_, rfl⟩
    | ok d => exact ⟨_, rfl⟩

theorem gmailSend_ok (env : GmailEnv)
    (htameS : ∀ e, env.sendCall = .error e → e = .httpError)
    (toV subjV bodyV : JValue) (hto : ∃ a, toV = .str a)
    (hsub : ∃ a, subjV = .str a) (hbody : ∃ a, bodyV = .str a) :
    ∃ s, gmailSend env toV subjV bodyV = .ok s := by
  obtain ⟨ta, hta⟩ := hto
  obtain ⟨sa, hsa⟩ := hsub
  obtain ⟨ba, hba⟩ := hbody
  subst hta
  subst hsa
  subst hba
  unfold gmailSend
  by_cases hup : env.serviceUp = false
  · rw [if_pos hup]; exact ⟨_, rfl⟩
  · rw [if_neg hup]
    cases hsc : env.sendCall with
    | error e =>
        have he := htameS _ hsc
        subst he
        exact ⟨_, rfl⟩
    | ok u =>
        exact ⟨_, rfl⟩

theorem replyBodyVal_str (photo : Bool) (s : String) :
    ∃ c, replyBodyVal photo (.str s) = .str c := by
  unfold replyBodyVal
  by_cases hp : photo = true
  · rw [if_pos hp]
    by_cases ht : jTruthy (JValue.str s) = true
    · rw [if_pos ht]; exact ⟨s, rfl⟩
    · rw [if_neg ht]; exact ⟨_, rfl⟩
  · rw [if_neg hp]; exact ⟨s, rfl⟩

theorem gmailReplySend_ok (env : GmailEnv)
    (htameS : ∀ e, env.sendCall = .error e → e = .httpError)
    (hfile : ∀ e, env.fileRead ≠ .error e)
    (photo : Bool) (ba : String) (toAddr : String) :
    ∃ s, gmailReplySend env photo (.str ba) toAddr = .ok s := by
  unfold gmailReplySend
  obtain ⟨c, hcval⟩ := replyBodyVal_str photo ba
  rw [hcval]
  cases photo with
  | false =>
      cases hsc : env.sendCall with
      | error e =>
          have he := htameS _ hsc
          subst he
          exact ⟨_, rfl⟩
      | ok u => exact ⟨_, rfl⟩
  | true =>
      cases hfr : env.fileRead with
      | error e => exact absurd hfr (hfile e)
      | ok fr =>
          cases hsc : env.sendCall with
          | error e =>
              have he := htameS _ hsc
              subst he
              exact ⟨_, rfl⟩
          | ok u => exact ⟨_, rfl⟩

theorem gmailReplyCore_ok (env : GmailEnv)
    (htameG : ∀ v e, env.getMsg v = .error e → e = .httpError)
    (htameS : ∀ e, env.sendCall = .error e → e = .httpError)
    (hfile : ∀ e, env.fileRead ≠ .error e)
    (photo : Bool) (msgId : JValue) (ba : String) (toEmail : Option String) :
    ∃ s, gmailReplyCore env photo msgId (.str ba) toEmail = .ok s := by
  unfold gmailReplyCore
  cases hg : env.getMsg msgId with
  | error e =>
      have he := htameG _ _ hg
      subst he
      exact ⟨_, rfl⟩
  | ok orig =>
      show ∃ s, gmailReplyAfterMsg env photo (.str ba) toEmail orig.headers = .ok s
      unfold gmailReplyAfterMsg
      cases hex : extractEmailAddress (replyToRaw toEmail orig.headers) with
      | none => exact ⟨_, rfl⟩
      | some toAddr =>
          show ∃ s, gmailReplySend env photo (.str ba) toAddr = .ok s
          exact gmailReplySend_ok env htameS hfile photo ba toAddr

theorem gmailReply_ok (env : GmailEnv)
    (htameG : ∀ v e, env.getMsg v = .error e → e = .httpError)
    (htameS : ∀ e, env.sendCall = .error e → e = .httpError)
    (hcam : ∀ e, env.camera = .error e → e = .timeoutExpired)
    (hfile : ∀ e, env.fileRead ≠ .error e)
    (msgId : JValue) (bodyV : JValue) (toEmail : Option String)
    (attachPhoto : JValue) (hbody : ∃ a, bodyV = .str a) :
    ∃ s, gmailReply env msgId bodyV toEmail attachPhoto = .ok s := by
  obtain ⟨ba, hba⟩ := hbody
  subst hba
  simp only [gmailReply]
  by_cases hup : env.serviceUp = false
  · rw [if_pos hup]; exact ⟨_, rfl⟩
  rw [if_neg hup]
  rcases hb : jTruthy attachPhoto with _ | _
  · show ∃ s, gmailReplyCore env false msgId (JValue.str ba) toEmail = Except.ok s
    exact gmailReplyCore_ok env htameG htameS hfile false msgId ba toEmail
  · cases hcv : env.camera with
    | error e =>
        have he := hcam _ hcv
        subst he
        exact ⟨_, rfl⟩
    | ok cam =>
        show ∃ s, (if (true = true) ∧ cam.returncode ≠ 0 then
            Except.ok ("写真の撮影に失敗しました: " ++ cam.stderr)
          else gmailReplyCore env true msgId (JValue.str ba) toEmail) = Except.ok s
        by_cases hrc : cam.returncode ≠ 0
        · rw [if_pos ⟨rfl, hrc⟩]
          exact ⟨_, rfl⟩
        · rw [if_neg (fun hcon => hrc hcon.2)]
          exact gmailReplyCore_ok env htameG htameS hfile true msgId ba toEmail

/-- C2: corrected dispatcher contract.  `execute_tool` returns a result
string for every tool call provided the email collaborators fail only
with `HttpError`, the camera fails only by timeout, the image file is
readable, and the message-construction parameters (body, and for send
also to/subject) are strings; outside these conditions exceptions
propagate past the dispatcher (see the counterexample). -/
theorem C2_dispatcher_total (tc : ToolCallArg) (env : GmailEnv) (st : NeckState)
    (nowIso : String) (htame : EnvTame env)
    (hsend : isToolName tc.tool "gmail_send" = true →
      StrParam tc.params "to" ∧ StrParam tc.params "subject" ∧ StrParam tc.params "body")
    (hreply : isToolName tc.tool "gmail_reply" = true → StrParam tc.params "body") :
    ∃ s, (executeTool tc env st nowIso).2 = .ok s := by
  obtain ⟨htL, htG, htS, htC, htF⟩ := htame
  simp only [executeTool]
  by_cases h1 : isToolName tc.tool "gmail_list" = true
  · rw [if_pos h1]
    exact gmailList_ok env htL htG _ _ _
  rw [if_neg h1]
  by_cases h2 : isToolName tc.tool "gmail_read" = true
  · rw [if_pos h2]
    cases hres : resolveMsgNum (pyGet tc.params "message_id" JValue.null) with
    | some n =>
        show ∃ s, (if 0 ≤ n - 1 ∧ n - 1 < (st.cache.length : Int) then
            (st, gmailRead env (.str (st.cache.getD (n - 1).toNat dummyEmail).id))
          else (st, Except.ok "指定されたメールが見つかりません")).2 = Except.ok s
        by_cases hidx : 0 ≤ n - 1 ∧ n - 1 < (st.cache.length : Int)
        · rw [if_pos hidx]
          exact gmailRead_ok env htG _
        · rw [if_neg hidx]
          exact ⟨_, rfl⟩
    | none => exact gmailRead_ok env htG _
  rw [if_neg h2]
  by_cases h3 : isToolName tc.tool "gmail_send" = true
  · rw [if_pos h3]
    obtain ⟨hto, hsub, hbody⟩ := hsend h3
    exact gmailSend_ok env htS _ _ _ hto hsub hbody
  rw [if_neg h3]
  by_cases h4 : isToolName tc.tool "gmail_reply" = true
  · rw [if_pos h4]
    have hbody := hreply h4
    cases hres : resolveMsgNum (pyGet tc.params "message_id" JValue.null) with
    | some n =>
        show ∃ s, (if 0 ≤ n - 1 ∧ n - 1 < (st.cache.length : Int) then
            (st, gmailReply env (.str (st.cache.getD (n - 1).toNat dummyEmail).id)
              (pyGet tc.params "body" JValue.null)
              (some (st.cache.getD (n - 1).toNat dummyEmail).from_email)
              (pyGet tc.params "attach_photo" (JValue.bool false)))
          else (st, Except.ok "指定されたメールが見つかりません。先に「メールを確認して」と言ってください。")).2 =
            Except.ok s
        by_cases hidx : 0 ≤ n - 1 ∧ n - 1 < (st.cache.length : Int)
        · rw [if_pos hidx]
          exact gmailReply_ok env htG htS htC htF _ _ _ _ hbody
        · rw [if_neg hidx]
          exact ⟨_, rfl⟩
    | none => exact gmailReply_ok env htG htS htC htF _ _ _ _ hbody
  rw [if_neg h4]
  by_cases h5 : isToolName tc.tool "alarm_set" = true
  · rw [if_pos h5]
    cases hv : pyGet tc.params "time" JValue.null <;> exact ⟨_, rfl⟩
  rw [if_neg h5]
  by_cases h6 : isToolName tc.tool "alarm_list" = true
  · rw [if_pos h6]
    exact ⟨_, rfl⟩
  rw [if_neg h6]
  by_cases h7 : isToolName tc.tool "alarm_delete" = true
  · rw [if_pos h7]
    cases hv : pyIntOf (pyGet tc.params "alarm_id" JValue.null) <;> exact ⟨_, rfl⟩
  rw [if_neg h7]
  by_cases h8 : isToolName tc.tool "camera_capture" = true
  · rw [if_pos h8]
    exact ⟨_, rfl⟩
  rw [if_neg h8]
  by_cases h9 : isToolName tc.tool "gmail_send_photo" = true
  · rw [if_pos h9]
    exact ⟨_, rfl⟩
  rw [if_neg h9]
  exact ⟨_, rfl⟩

/-- C2 witness: a concrete list-messages call under a fully healthy
environment returns a string. -/
theorem C2_dispatcher_total_witness :
    isOkE (executeTool ⟨.str "gmail_list", []⟩ wTameEnv wNeckSt "t").2 = true := by
  obtain ⟨s, hs⟩ := C2_dispatcher_total ⟨.str "gmail_list", []⟩ wTameEnv wNeckSt "t"
    ⟨fun q m e h => by simp [wTameEnv] at h,
     fun v e h => by simp [wTameEnv] at h,
     fun e h => by simp [wTameEnv] at h,
     fun e h => by simp [wTameEnv] at h,
     fun e h => by simp [wTameEnv] at h⟩
    (fun h => absurd h (by decide))
    (fun h => absurd h (by decide))
  rw [hs]
  rfl

/-- C2 counterexample: a list-messages call whose collaborator fails with
a connection error (not an HttpError) propagates the exception out of
`execute_tool`, refuting "never raises past this boundary" for arbitrary
collaborator failures. -/
theorem C2_dispatcher_total_cex :
    errOf (executeTool ⟨.str "gmail_list", []⟩ cexEnvC2 wNeckSt "t").2 =
      some .connectionError := by decide

/-- C10: corrected cache frame condition.  The `last_email_list` cache is
unchanged whenever the search request fails or returns zero message ids;
but once at least one id is found the cache is cleared before any detail
is fetched, so a failing detail fetch can leave it empty rather than
preserving the previous listing (see the counterexample). -/
theorem C10_cache_frame (env : GmailEnv) (q m : JValue) (cache : List EmailInfo)
    (h : (∃ e, env.listCall q m = .error e) ∨ env.listCall q m = .ok []) :
    (gmailList env q m cache).1 = cache := by
  unfold gmailList
  by_cases hup : env.serviceUp = false
  · rw [if_pos hup]
  · rw [if_neg hup]
    rcases h with ⟨e, he⟩ | he
    · rw [he]
      show (if e = PyExc.httpError then
          ((cache, Except.ok ("メール取得エラー: " ++ e.msg)) :
            List EmailInfo × Except PyExc String)
        else (cache, Except.error e)).1 = cache
      by_cases hh : e = .httpError
      · rw [if_pos hh]
      · rw [if_neg hh]
    · rw [he]
      rfl

/-- C10 witness: a failing search request leaves a concrete previous
cache untouched. -/
theorem C10_cache_frame_witness :
    (gmailList c10EnvListFail (.str "is:unread") (.int 5) c10Prev).1 = c10Prev :=
  C10_cache_frame c10EnvListFail (.str "is:unread") (.int 5) c10Prev (Or.inl ⟨.httpError, rfl⟩)

/-- C10 counterexample: the search finds one id, the first detail fetch
fails with an HttpError, and the previously cached listing is wiped to
empty — a failure before any message was retrieved that does not keep the
cache unchanged. -/
theorem C10_cache_frame_cex :
    (gmailList c10EnvDetailFail (.str "is:unread") (.int 5) c10Prev).1 = [] ∧
    c10Prev ≠ [] ∧
    (gmailList c10EnvDetailFail (.str "is:unread") (.int 5) c10Prev).2 =
      .ok "メール取得エラー: HttpError" := by
  refine ⟨rfl, ?_, rfl⟩
  decide

/-- C1 witness: concrete bounds for one turn from an empty history. -/
theorem C1_history_bound_witness :
    (getAiResponse [] "hi" cEnvTool).2.1.length ≤ 13 ∧
    (truncHist ([] ++ [⟨"user", "hi"⟩])).length ≤ 10 := by
  obtain ⟨_, h2, _, h4⟩ := C1_history_bound [] "hi" cEnvTool
  exact ⟨h4, h2⟩

/-- C1 counterexample: after three consecutive tool-handling turns from an
empty history, the third turn's second chat request carries 11 history
turns and the history afterwards holds 12 turns — both above the claimed
cap of 10. -/
theorem C1_history_bound_cex :
    c1Turn3.2.2.map List.length = [9, 11] ∧ c1Turn3.2.1.length = 12 := by decide
